import Mathlib

/-!
# TDResultsReader: a shallow embedding of `src/TDResultsReader.cpp`

The program adapts a Thermal Desktop result archive (`SaveFile`) into a System
Coupling participant.  The embedding follows the source function by function:

* the process-wide globals `pointClouds`, `solutionData`, `globalIdToRegionIndex`
  and `regions` become the fields of `State`, passed explicitly;
* the archive is a record of the pure queries the program issues against it;
* a C++ or managed exception becomes the `error` field of an `Outcome`, which also
  keeps the state the globals are left in when the exception is thrown;
* `std::size_t` is `Nat`; `int` and `long` arithmetic that can leave the 32-bit range
  is written out modulo `2 ^ 32`, and the conversion of a negative `long` to
  `std::size_t` modulo `2 ^ 64`;
* a `double` is only stored and copied, never computed with; it is modelled by `Rat`.
-/

namespace TDResultsReader

/-! ## Data model -/

/-- A C++ `double`.  The program never does arithmetic on one. -/
abbrev Double := Rat

/-- The exceptions the program can run into. -/
inductive Error where
  /-- The exception `std::out_of_range`, thrown by `std::vector::at` and `std::map::at` -/
  | outOfRange
  /-- The exception `std::runtime_error`, thrown by `getDim` -/
  | unexpectedDesignator
  /-- The managed exception of a .NET indexer used outside its range -/
  | indexOutOfRange
  /-- A failure signalled by a call into the coupling library (a `std::exception`) -/
  | peerFailure
  deriving DecidableEq, Repr

/-- The alias `using Vector = std::array<double, 3>`. -/
structure Vector where
  x : Double
  y : Double
  z : Double
  deriving DecidableEq, Repr

/-- The value `Vector()`: value-initialised, all three components zero. -/
def Vector.zero : Vector := ⟨0, 0, 0⟩

/-- Read access `v[dim]`. -/
def Vector.get (v : Vector) (dim : Fin 3) : Double :=
  match dim with
  | 0 => v.x
  | 1 => v.y
  | 2 => v.z

/-- The assignment `v[dim] = val`. -/
def Vector.set (v : Vector) (dim : Fin 3) (val : Double) : Vector :=
  match dim with
  | 0 => { v with x := val }
  | 1 => { v with y := val }
  | 2 => { v with z := val }

/-- The record `struct PointCloud { Ids ids; NodeCoords coords; }`. -/
structure PointCloud where
  ids : List Nat
  coords : List Vector
  deriving DecidableEq, Repr

/-- The method `PointCloud::size()` returns `ids.size()`. -/
def PointCloud.size (pc : PointCloud) : Nat := pc.ids.length

/-- A `std::map` with `std::string` keys, as the list of its entries. -/
abbrev Map (β : Type) := List (String × β)

/-- The entry stored under `k`, if there is one (`std::map::find`). -/
def Map.find {β : Type} (m : Map β) (k : String) : Option β := List.lookup k m

/-- Insertion of a fresh entry at its place in key order (`std::less<std::string>`,
the lexicographic order of the characters). -/
def Map.insertSorted {β : Type} (k : String) (v : β) : Map β → Map β
  | [] => [(k, v)]
  | (k', v') :: rest =>
    if k.data < k'.data then (k, v) :: (k', v') :: rest
    else (k', v') :: Map.insertSorted k v rest

/-- The method `std::map::emplace`: inserts only when the key is absent. -/
def Map.emplace {β : Type} (m : Map β) (k : String) (v : β) : Map β :=
  if (Map.find m k).isSome then m else Map.insertSorted k v m

/-- In-place update, through a reference, of the value stored under `k`. -/
def Map.modify {β : Type} (m : Map β) (k : String) (f : β → β) : Map β :=
  m.map (fun e => if e.1 = k then (e.1, f e.2) else e)

/-- The keys of a map, in iteration order. -/
def Map.keys {β : Type} (m : Map β) : List String := m.map Prod.fst

/-- The enumeration `sysc::Topology`. -/
inductive Topology where
  | Volume
  | Surface
  deriving DecidableEq, Repr

/-- The enumeration `sysc::RegionDiscretizationType`. -/
inductive RegionDiscretizationType where
  | MeshRegion
  | PointCloudRegion
  deriving DecidableEq, Repr

/-- The class `sysc::Region`, with the three constructor arguments the program passes. -/
structure Region where
  name : String
  topology : Topology
  discretizationType : RegionDiscretizationType
  deriving DecidableEq, Repr

/-- The method `Region::getName`. -/
def Region.getName (r : Region) : String := r.name

/-- The alias `using VariableData = std::map<sysc::VariableName, std::vector<double>>`. -/
abbrev VariableData := Map (List Double)

/-- The four global containers of the program. -/
structure State where
  pointClouds : Map PointCloud
  solutionData : Map VariableData
  globalIdToRegionIndex : List (Nat × Nat)
  regions : List Region
  deriving DecidableEq, Repr

/-- The globals at program start: all four containers empty. -/
def State.empty : State := ⟨[], [], [], []⟩

/-- What a call leaves behind: the globals, and the exception it threw, if any. -/
structure Outcome where
  state : State
  error : Option Error
  deriving DecidableEq, Repr

/-! ## The archive -/

/-- A field descriptor of the archive; the program reads its `SindaDesignator`. -/
structure UdfaDescription where
  sindaDesignator : String
  deriving DecidableEq, Repr

/-- The queries the program issues against `OpenTDv232::Results::Dataset::SaveFile`.
The archive is opened read-only, so each query is a function of its arguments.
`getTemperatureData submodel` is `GetData` on the `T` items of all nodes of the
submodel: one series per item, each indexed by time step.  An internal index is
an index into the archive's global node array, hence a natural number.  Submodel
names are taken to survive `getStdString` unchanged. -/
structure SaveFile where
  getRecordNumbers : List Int
  getUdfasAtRecord : Int → List UdfaDescription
  getDataAtRecord : UdfaDescription → Int → List Double
  getThermalSubmodels : List String
  getNodeIds : String → List Int
  getInternalIndex : String → Int → Nat
  getTemperatureData : String → List (List Double)

/-! ## Control flow and primitive operations -/

/-- A `for each` loop whose body may throw: the loop stops at the first exception
and the globals stay as the throwing iteration left them. -/
def forEach {α : Type} (body : α → State → Outcome) : List α → State → Outcome
  | [], s => ⟨s, none⟩
  | a :: rest, s =>
    if (body a s).error.isSome then body a s else forEach body rest (body a s).state

/-- A .NET indexer `xs[i]` with an `int` index: defined for `0 ≤ i < Count` only. -/
def indexer {α : Type} (xs : List α) (i : Int) : Option α :=
  if 0 ≤ i then xs[i.toNat]? else none

/-- Conversion of a `long` to `std::size_t` (64 bit). -/
def toSizeT (v : Int) : Nat := (v % 2 ^ 64).toNat

/-- The value of an `int` or `long` expression: both types have 32 bits in this program,
and a result outside their range wraps around modulo `2 ^ 32`. -/
def toLong (v : Int) : Int := (v + 2 ^ 31) % 2 ^ 32 - 2 ^ 31

/-- The local id stored for a node id (source lines 195 and 199): `long localId = id - 1`
in 32-bit arithmetic, converted to `std::size_t` when the pair is stored. -/
def localIdOf (id : Int) : Nat := toSizeT (toLong (id - 1))

/-- The method `std::vector::resize` with value-initialised new elements. -/
def resize (v : List (Nat × Nat)) (n : Nat) : List (Nat × Nat) :=
  v.take n ++ List.replicate (n - v.length) (0, 0)

/-- Substring test on character lists. -/
def containsChars : List Char → List Char → Bool
  | [], pat => pat.isEmpty
  | c :: cs, pat => pat.isPrefixOf (c :: cs) || containsChars cs pat

/-- The method `System::String::Contains` (ordinal). -/
def contains (s pat : String) : Bool := containsChars s.data pat.data

/-- The function `getDim`: the axis a designator names, first match wins; throws otherwise. -/
def getDim (sindaDesignator : String) : Except Error (Fin 3) :=
  if contains sindaDesignator "POS_X" then .ok 0
  else if contains sindaDesignator "POS_Y" then .ok 1
  else if contains sindaDesignator "POS_Z" then .ok 2
  else .error .unexpectedDesignator

/-- The function `isEmptyRegion`: the submodel has no temperature data item. -/
def isEmptyRegion (tdFile : SaveFile) (submodel : String) : Bool :=
  if (tdFile.getTemperatureData submodel).length > 0 then false else true

/-! ## Synchronisation of one time step: `fillTimeStepData` -/

/-- The assignment `coords.at(localId)[dim] = coordValue` on a coordinate vector
(the range check of `at` is made by the caller). -/
def setCoord (coords : List Vector) (localId : Nat) (dim : Fin 3) (coordValue : Double) :
    List Vector :=
  match coords[localId]? with
  | some c => coords.set localId (c.set dim coordValue)
  | none => coords

/-- The globals after the assignment of source line 144, once its `at` calls have
succeeded: component `dim` of coordinate `localId` of the point cloud `name`. -/
def storeCoord (s : State) (name : String) (localId : Nat) (dim : Fin 3)
    (coordValue : Double) : State :=
  let written := Map.modify s.pointClouds name
    (fun p => { p with coords := setCoord p.coords localId dim coordValue })
  { s with pointClouds := written }

/-- The globals after the assignment of source line 163, once its `at` calls have
succeeded: entry `index` of the `Temperature` array of the region `name`. -/
def storeTemperature (s : State) (name : String) (index : Nat) (value : Double) : State :=
  let written := Map.modify s.solutionData name
    (fun vd => Map.modify vd "Temperature" (fun t => t.set index value))
  { s with solutionData := written }

/-- Body of the inner position loop (source lines 141 to 144) for one
`globalId` and the value `udfaData[globalId]`. -/
def writeCoord (sindaDesignator : String) (entry : Nat × Double) (s : State) : Outcome :=
  match s.globalIdToRegionIndex[entry.1]? with
  | none => ⟨s, some .outOfRange⟩
  | some (regionIndex, localId) =>
    match getDim sindaDesignator with
    | .error e => ⟨s, some e⟩
    | .ok dim =>
      match s.regions[regionIndex]? with
      | none => ⟨s, some .outOfRange⟩
      | some region =>
        match Map.find s.pointClouds region.getName with
        | none => ⟨s, some .outOfRange⟩
        | some pc =>
          if localId < pc.coords.length then
            ⟨storeCoord s region.getName localId dim entry.2, none⟩
          else ⟨s, some .outOfRange⟩

/-- Body of the loop over the field descriptors of a record (source lines 132 to 145). -/
def fillPosition (tdFile : SaveFile) (currRecordNum : Int) (udfaDescription : UdfaDescription)
    (s : State) : Outcome :=
  if !contains udfaDescription.sindaDesignator "POS_" then ⟨s, none⟩
  else
    forEach (writeCoord udfaDescription.sindaDesignator)
      (tdFile.getDataAtRecord udfaDescription currRecordNum).enum s

/-- Body of the inner temperature loop (source lines 161 to 163) for one `index`
and the series `temperatureData[index]`. -/
def writeTemperature (regionName : String) (timeStep : Int) (entry : Nat × List Double)
    (s : State) : Outcome :=
  match indexer entry.2 timeStep with
  | none => ⟨s, some .indexOutOfRange⟩
  | some valueAtTimeStep =>
    match Map.find s.solutionData regionName with
    | none => ⟨s, some .outOfRange⟩
    | some variableData =>
      match Map.find variableData "Temperature" with
      | none => ⟨s, some .outOfRange⟩
      | some temperature =>
        if entry.1 < temperature.length then
          ⟨storeTemperature s regionName entry.1 valueAtTimeStep, none⟩
        else ⟨s, some .outOfRange⟩

/-- Body of the loop over the thermal submodels (source lines 150 to 164). -/
def fillTemperature (tdFile : SaveFile) (timeStep : Int) (submodel : String) (s : State) :
    Outcome :=
  let regionName := submodel
  let temperatureData := tdFile.getTemperatureData submodel
  if temperatureData.length = 0 then ⟨s, none⟩
  else forEach (writeTemperature regionName timeStep) temperatureData.enum s

/-- The function `fillTimeStepData` (source lines 117 to 167). -/
def fillTimeStepData (tdFile : SaveFile) (timeStep : Int) (s : State) : Outcome :=
  match indexer tdFile.getRecordNumbers timeStep with
  | none => ⟨s, some .indexOutOfRange⟩
  | some currRecordNum =>
    let positions :=
      forEach (fillPosition tdFile currRecordNum) (tdFile.getUdfasAtRecord currRecordNum) s
    if positions.error.isSome then positions
    else forEach (fillTemperature tdFile timeStep) tdFile.getThermalSubmodels positions.state

/-! ## Discovery: `readData` -/

/-- The update of `globalIdToRegionIndex` for one node (source lines 196 to 199):
grow the vector when `globalId` is beyond its end, then assign the entry. -/
def storeIndex (index : List (Nat × Nat)) (globalId : Nat) (entry : Nat × Nat) :
    List (Nat × Nat) :=
  let grown := if index.length < globalId + 1 then resize index (globalId + 1) else index
  grown.set globalId entry

/-- Body of the loop over the node ids of a submodel (source lines 194 to 203).
The references `pointCloud` and `currTemperature` taken before the loop point into
the map entries stored under `regionName`. -/
def readNode (tdFile : SaveFile) (submodel regionName : String) (regionIndex : Nat)
    (s : State) (id : Int) : State :=
  let globalId := tdFile.getInternalIndex submodel id
  let localId := localIdOf id
  { pointClouds := Map.modify s.pointClouds regionName
      (fun pc => ⟨pc.ids ++ [globalId], pc.coords ++ [Vector.zero]⟩)
    solutionData := Map.modify s.solutionData regionName
      (fun vd => Map.modify vd "Temperature" (fun t => t ++ [300]))
    globalIdToRegionIndex := storeIndex s.globalIdToRegionIndex globalId (regionIndex, localId)
    regions := s.regions }

/-- Body of the loop over the thermal submodels (source lines 175 to 204). -/
def readSubmodel (tdFile : SaveFile) (submodel : String) (s : State) : Outcome :=
  if isEmptyRegion tdFile submodel then ⟨s, none⟩
  else
    let regionName := submodel
    let regionIndex := s.regions.length
    let s1 : State :=
      { s with
        regions := s.regions ++ [⟨regionName, .Volume, .PointCloudRegion⟩]
        pointClouds := Map.emplace s.pointClouds regionName ⟨[], []⟩ }
    match Map.find s1.pointClouds regionName with
    | none => ⟨s1, some .outOfRange⟩
    | some _ =>
      let s2 : State := { s1 with solutionData := Map.emplace s1.solutionData regionName [] }
      match Map.find s2.solutionData regionName with
      | none => ⟨s2, some .outOfRange⟩
      | some _ =>
        let created := Map.modify s2.solutionData regionName
          (fun vd => Map.emplace vd "Temperature" [])
        let s3 : State := { s2 with solutionData := created }
        match (Map.find s3.solutionData regionName).bind (fun vd => Map.find vd "Temperature") with
        | none => ⟨s3, some .outOfRange⟩
        | some _ =>
          ⟨(tdFile.getNodeIds submodel).foldl
            (readNode tdFile submodel regionName regionIndex) s3, none⟩

/-- The function `readData` (source lines 169 to 205; the debug printout has no effect
on the globals). -/
def readData (tdFile : SaveFile) (s : State) : Outcome :=
  forEach (readSubmodel tdFile) tdFile.getThermalSubmodels s

/-! ## Predicates used in the statements -/

/-- Every region has a point cloud and a temperature array, and the three sequences
`ids`, `coords` and `Temperature` of the region have the same length. -/
def EqualLengths (s : State) : Prop :=
  ∀ r ∈ s.regions, ∃ pc vd t,
    Map.find s.pointClouds r.getName = some pc ∧
    Map.find s.solutionData r.getName = some vd ∧
    Map.find vd "Temperature" = some t ∧
    pc.ids.length = pc.coords.length ∧ pc.coords.length = t.length

/-- The invariant of discovery and synchronisation: the two maps have the same keys,
every region name is one of them, and under every key the lengths agree. -/
def Balanced (s : State) : Prop :=
  (∀ r ∈ s.regions, (Map.find s.pointClouds r.getName).isSome) ∧
  (∀ name pc, Map.find s.pointClouds name = some pc →
    pc.ids.length = pc.coords.length ∧
    ∃ vd t, Map.find s.solutionData name = some vd ∧
      Map.find vd "Temperature" = some t ∧ pc.coords.length = t.length) ∧
  (∀ name, Map.find s.pointClouds name = none → Map.find s.solutionData name = none)

/-- The globals after the region of a non-empty submodel has been created
(source lines 182 to 190), before its nodes are read. -/
def openRegion (regionName : String) (s : State) : State :=
  { regions := s.regions ++ [⟨regionName, .Volume, .PointCloudRegion⟩]
    pointClouds := Map.emplace s.pointClouds regionName ⟨[], []⟩
    solutionData := Map.modify (Map.emplace s.solutionData regionName []) regionName
      (fun vd => Map.emplace vd "Temperature" [])
    globalIdToRegionIndex := s.globalIdToRegionIndex }

/-- The globals after discovery followed by the synchronisations `steps`, in order,
whether they succeed or not. -/
def afterSteps (tdFile : SaveFile) (steps : List Int) : State :=
  steps.foldl (fun s t => (fillTimeStepData tdFile t s).state)
    (readData tdFile State.empty).state

/-- The entry of `globalIdToRegionIndex` at `globalId`, with the value-initialised
pair for a position beyond the end of the vector. -/
def entryAt (index : List (Nat × Nat)) (globalId : Nat) : Nat × Nat :=
  (index[globalId]?).getD (0, 0)

/-- The region discovery creates for a submodel. -/
def mkRegion (regionName : String) : Region := ⟨regionName, .Volume, .PointCloudRegion⟩

/-- The submodels discovery does not skip, in archive order. -/
def discovered (tdFile : SaveFile) (submodels : List String) : List String :=
  submodels.filter (fun m => !isEmptyRegion tdFile m)

/-- The index after the nodes `ids` of one submodel have been entered, in order,
for the region `regionIndex`. -/
def indexNodes (tdFile : SaveFile) (submodel : String) (regionIndex : Nat)
    (index : List (Nat × Nat)) (ids : List Int) : List (Nat × Nat) :=
  ids.foldl (fun idx id =>
    storeIndex idx (tdFile.getInternalIndex submodel id) (regionIndex, localIdOf id)) index

/-- A point cloud after the nodes with global ids `gids` have been appended to it. -/
def PointCloud.extend (pc : PointCloud) (gids : List Nat) : PointCloud :=
  ⟨pc.ids ++ gids, pc.coords ++ List.replicate gids.length Vector.zero⟩

/-- The global ids of the nodes of a submodel, in archive order. -/
def nodeGlobalIds (tdFile : SaveFile) (submodel : String) : List Nat :=
  (tdFile.getNodeIds submodel).map (tdFile.getInternalIndex submodel)

/-- The global ids discovery appends to the point cloud stored under `name` while it
goes through `submodels`. -/
def discoveredIds (tdFile : SaveFile) : List String → String → List Nat
  | [], _ => []
  | m :: rest, name =>
    (if isEmptyRegion tdFile m = false ∧ m = name then nodeGlobalIds tdFile m else []) ++
      discoveredIds tdFile rest name

/-- The archive gives distinct nodes of the submodels that are not skipped distinct
internal indices. -/
def InjectiveIndex (tdFile : SaveFile) (submodels : List String) : Prop :=
  ∀ m1 ∈ discovered tdFile submodels, ∀ m2 ∈ discovered tdFile submodels,
    ∀ id1 ∈ tdFile.getNodeIds m1, ∀ id2 ∈ tdFile.getNodeIds m2,
      tdFile.getInternalIndex m1 id1 = tdFile.getInternalIndex m2 id2 → m1 = m2 ∧ id1 = id2

/-! ## Example archives -/

/-- An archive with one submodel `B` whose only node has id `5` and global id `0`. -/
def gapArchive : SaveFile where
  getRecordNumbers := [1]
  getUdfasAtRecord := fun _ => []
  getDataAtRecord := fun _ _ => []
  getThermalSubmodels := ["B"]
  getNodeIds := fun _ => [5]
  getInternalIndex := fun _ _ => 0
  getTemperatureData := fun _ => [[300]]

/-- An archive with one submodel `B` whose only node has id `1` and global id `1`; the
global id `0` belongs to no node of `B`.  Its record carries one position field with
a single value, the one for global id `0`. -/
def sparseArchive : SaveFile where
  getRecordNumbers := [1]
  getUdfasAtRecord := fun _ => [⟨"POS_X"⟩]
  getDataAtRecord := fun _ _ => [7]
  getThermalSubmodels := ["B"]
  getNodeIds := fun _ => [1]
  getInternalIndex := fun _ _ => 1
  getTemperatureData := fun _ => [[300]]

/-- The archive of scenarios A and B: submodel `A` has no temperature data; submodel `B`
has the node ids 1 and 2 with global ids 5 and 6; the record carries a position field
for the x axis with the values 1.5 and 2.5 at the global ids 5 and 6, and a field that
is not a position. -/
def scenarioArchive : SaveFile where
  getRecordNumbers := [10, 20]
  getUdfasAtRecord := fun _ => [⟨"REG.POS_X"⟩, ⟨"REG.OTHER"⟩]
  getDataAtRecord := fun _ _ => [0, 0, 0, 0, 0, 1.5, 2.5]
  getThermalSubmodels := ["A", "B"]
  getNodeIds := fun m => if m = "B" then [1, 2] else [7]
  getInternalIndex := fun _ id => (id + 4).toNat
  getTemperatureData := fun m => if m = "B" then [[310, 311], [320, 321]] else []

/-! ## One synchronisation as a sequence of single writes -/

/-- One execution of an innermost loop body of `fillTimeStepData`: a coordinate write
of the position loop, or a temperature write of the temperature loop. -/
inductive Write where
  | coord (sindaDesignator : String) (globalId : Nat) (coordValue : Double)
  | temperature (regionName : String) (index : Nat) (series : List Double)
  deriving DecidableEq, Repr

/-- Execution of a single write at time step `timeStep`. -/
def Write.run (timeStep : Int) : Write → State → Outcome
  | .coord d g v => writeCoord d (g, v)
  | .temperature name i series => writeTemperature name timeStep (i, series)

/-- The coordinate writes of one field descriptor, by ascending global id; none when the
designator does not carry the position marker. -/
def fieldWrites (tdFile : SaveFile) (currRecordNum : Int) (d : UdfaDescription) : List Write :=
  if contains d.sindaDesignator "POS_" then
    (tdFile.getDataAtRecord d currRecordNum).enum.map
      (fun e => Write.coord d.sindaDesignator e.1 e.2)
  else []

/-- The coordinate writes the position loop attempts at a record, in order. -/
def positionWrites (tdFile : SaveFile) (currRecordNum : Int) : List Write :=
  ((tdFile.getUdfasAtRecord currRecordNum).map (fieldWrites tdFile currRecordNum)).flatten

/-- The temperature writes of one submodel, by ascending position. -/
def submodelWrites (tdFile : SaveFile) (submodel : String) : List Write :=
  (tdFile.getTemperatureData submodel).enum.map
    (fun e => Write.temperature submodel e.1 e.2)

/-- The temperature writes the temperature loop attempts, in order. -/
def temperatureWrites (tdFile : SaveFile) : List Write :=
  (tdFile.getThermalSubmodels.map (submodelWrites tdFile)).flatten

/-- The coordinate slot a global id resolves to: the name of its region and its local id. -/
def slotOf (s : State) (globalId : Nat) : Option (String × Nat) :=
  match s.globalIdToRegionIndex[globalId]? with
  | none => none
  | some (regionIndex, localId) =>
    match s.regions[regionIndex]? with
    | none => none
    | some region => some (region.getName, localId)

/-- The stored coordinate component `dim` of the slot `(name, localId)`. -/
def coordOfSlot (s : State) (slot : String × Nat) (dim : Fin 3) : Option Double :=
  match Map.find s.pointClouds slot.1 with
  | none => none
  | some pc =>
    match pc.coords[slot.2]? with
    | none => none
    | some c => some (c.get dim)

/-- The stored coordinate component `dim` of the node a global id resolves to. -/
def coordAt (s : State) (globalId : Nat) (dim : Fin 3) : Option Double :=
  match slotOf s globalId with
  | none => none
  | some slot => coordOfSlot s slot dim

/-- The stored temperature at position `i` of the region `name`. -/
def temperatureAt (s : State) (name : String) (i : Nat) : Option Double :=
  match Map.find s.solutionData name with
  | none => none
  | some vd =>
    match Map.find vd "Temperature" with
    | none => none
    | some t => t[i]?

/-- The assignment a write performs once all its range checks have passed. -/
inductive Action where
  | coord (name : String) (localId : Nat) (dim : Fin 3) (value : Double)
  | temperature (name : String) (index : Nat) (value : Double)
  deriving DecidableEq, Repr

/-- The globals after an assignment. -/
def Action.apply : Action → State → State
  | .coord name localId dim value, s => storeCoord s name localId dim value
  | .temperature name index value, s => storeTemperature s name index value

/-- The globals after a sequence of assignments. -/
def applyAll (actions : List Action) (s : State) : State :=
  actions.foldl (fun s a => a.apply s) s

/-- The range checks of a write: the assignment it performs, or the exception it throws. -/
def Write.resolve (timeStep : Int) : Write → State → Except Error Action
  | .coord d g v, s =>
    match s.globalIdToRegionIndex[g]? with
    | none => .error .outOfRange
    | some (regionIndex, localId) =>
      match getDim d with
      | .error e => .error e
      | .ok dim =>
        match s.regions[regionIndex]? with
        | none => .error .outOfRange
        | some region =>
          match Map.find s.pointClouds region.getName with
          | none => .error .outOfRange
          | some pc =>
            if localId < pc.coords.length then .ok (Action.coord region.getName localId dim v)
            else .error .outOfRange
  | .temperature name i series, s =>
    match indexer series timeStep with
    | none => .error .indexOutOfRange
    | some value =>
      match Map.find s.solutionData name with
      | none => .error .outOfRange
      | some vd =>
        match Map.find vd "Temperature" with
        | none => .error .outOfRange
        | some temps =>
          if i < temps.length then .ok (Action.temperature name i value)
          else .error .outOfRange

/-- The assignments a sequence of writes performs in the state `s`. -/
def actionsOf (timeStep : Int) (ws : List Write) (s : State) : List Action :=
  ws.filterMap (fun w => (Write.resolve timeStep w s).toOption)

/-- The assignment `a` writes the coordinate component `dim` of the slot `slot`. -/
def Action.writesCoord (a : Action) (slot : String × Nat) (dim : Fin 3) : Prop :=
  match a with
  | .coord name l d _ => name = slot.1 ∧ l = slot.2 ∧ d = dim
  | .temperature _ _ _ => False

/-- The assignment `a` writes the temperature at position `i` of the region `name`. -/
def Action.writesTemperature (a : Action) (name : String) (i : Nat) : Prop :=
  match a with
  | .coord _ _ _ _ => False
  | .temperature n j _ => n = name ∧ j = i

/-- An archive with three regions of sizes 2, 3 and 1 and two records; the temperature
series of the node at position `i` of a region holds distinct values per time step. -/
def threeRegionArchive : SaveFile where
  getRecordNumbers := [1, 2]
  getUdfasAtRecord := fun _ => []
  getDataAtRecord := fun _ _ => []
  getThermalSubmodels := ["P", "Q", "R"]
  getNodeIds := fun m => if m = "P" then [1, 2] else if m = "Q" then [1, 2, 3] else [1]
  getInternalIndex := fun m id =>
    if m = "P" then (id - 1).toNat else if m = "Q" then (id + 1).toNat else (id + 4).toNat
  getTemperatureData := fun m =>
    if m = "P" then [[10, 11], [20, 21]]
    else if m = "Q" then [[30, 31], [40, 41], [50, 51]]
    else [[60, 61]]

/-- An archive in which the global id 1 lies between the global ids 0 and 2 of the two
nodes of submodel `B` and belongs to the skipped submodel `A`; the position field for
the x axis returns the values 1.5, 9 and 2.5 for the global ids 0, 1 and 2. -/
def overwriteArchive : SaveFile where
  getRecordNumbers := [1]
  getUdfasAtRecord := fun _ => [⟨"POS_X"⟩]
  getDataAtRecord := fun _ _ => [1.5, 9, 2.5]
  getThermalSubmodels := ["A", "B"]
  getNodeIds := fun m => if m = "B" then [1, 2] else [1]
  getInternalIndex := fun m id => if m = "B" then (2 * (id - 1)).toNat else 1
  getTemperatureData := fun m => if m = "B" then [[300], [300]] else []

/-- The enumeration `sysc::ConvergenceStatus` of the coupling library; the program only
ever passes `NotEvaluated`. -/
inductive ConvergenceStatus where
  | NotEvaluated
  | NotConverged
  | Converged
  deriving DecidableEq, Repr

/-- The calls the driver issues, in the order it issues them: the calls into the coupling
library (from the construction of the `SystemCoupling` object, `connect`, to `disconnect`)
and its own calls of `fillTimeStepData`. -/
inductive Event where
  | connect
  | addRegion (regionName : String) (outputVariable : String)
  | completeSetup
  | writeSetupFile (fileName : String)
  | registerPointCloudAccess
  | registerOutputScalarDataAccess
  | registerRestartPointCreation
  | fillTimeStepData (timeStep : Int)
  | initializeAnalysis
  | doTimeStep
  | doIteration
  | updateInputs
  | updateOutputs (status : ConvergenceStatus)
  | disconnect
  deriving DecidableEq, Repr

/-- What the registered callbacks `getPointCloud`, `getOutputScalar` and
`getRestartPoint` let the coupling library read: the globals and the time-step counter. -/
structure View where
  globals : State
  timeStep : Int

/-- The coupling library as the driver uses it: an opaque peer with a state of its own.
Every call may fail; the calls made after the callbacks are registered may read the
globals through them. -/
structure SystemCoupling (σ : Type) where
  connect : Except Error σ
  addRegion : String → String → σ → Except Error σ
  completeSetup : σ → Except Error σ
  writeSetupFile : String → σ → Except Error σ
  registerPointCloudAccess : σ → Except Error σ
  registerOutputScalarDataAccess : σ → Except Error σ
  registerRestartPointCreation : σ → Except Error σ
  initializeAnalysis : View → σ → Except Error σ
  doTimeStep : View → σ → Except Error (Bool × σ)
  doIteration : View → σ → Except Error (Bool × σ)
  updateInputs : View → σ → Except Error σ
  updateOutputs : ConvergenceStatus → View → σ → Except Error σ
  disconnect : σ → Except Error σ

/-- The state of the running process: the globals, the global counter `timeStep` (an
`int`, here unbounded), the state of the peer, and the calls issued so far. -/
structure Process (σ : Type) where
  globals : State
  timeStep : Int
  peer : σ
  trace : List Event

/-- The view the callbacks give of a process. -/
def Process.view {σ : Type} (p : Process σ) : View := ⟨p.globals, p.timeStep⟩

/-- A call into the coupling library that returns nothing: the call is recorded, and
either the peer moves on or the exception is reported. -/
def Process.call {σ : Type} (p : Process σ) (e : Event) (r : Except Error σ) :
    Process σ × Option Error :=
  match r with
  | .ok peer => ({ p with peer := peer, trace := p.trace ++ [e] }, none)
  | .error err => ({ p with trace := p.trace ++ [e] }, some err)

/-- The inner loop `while (sc.doIteration())` (source lines 305 to 311), with a bound
`fuel` on the number of iterations; `none` when the bound is reached. -/
def iterationLoop {σ : Type} (sc : SystemCoupling σ) :
    Nat → Process σ → Option (Process σ × Option Error)
  | 0, _ => none
  | fuel + 1, p =>
    match sc.doIteration p.view p.peer with
    | .error err => some ({ p with trace := p.trace ++ [.doIteration] }, some err)
    | .ok (false, peer) =>
      some ({ p with peer := peer, trace := p.trace ++ [.doIteration] }, none)
    | .ok (true, peer) =>
      let p1 : Process σ := { p with peer := peer, trace := p.trace ++ [.doIteration] }
      match p1.call .updateInputs (sc.updateInputs p1.view p1.peer) with
      | (p2, some err) => some (p2, some err)
      | (p2, none) =>
        match p2.call (.updateOutputs .NotEvaluated)
            (sc.updateOutputs .NotEvaluated p2.view p2.peer) with
        | (p3, some err) => some (p3, some err)
        | (p3, none) => iterationLoop sc fuel p3

/-- The outer loop `while (sc.doTimeStep())` (source lines 301 to 312), with a bound
`fuel` on the number of time steps and on the iterations of each; `none` when a bound
is reached. -/
def timeStepLoop {σ : Type} (sc : SystemCoupling σ) (tdFile : SaveFile) :
    Nat → Process σ → Option (Process σ × Option Error)
  | 0, _ => none
  | fuel + 1, p =>
    match sc.doTimeStep p.view p.peer with
    | .error err => some ({ p with trace := p.trace ++ [.doTimeStep] }, some err)
    | .ok (false, peer) =>
      some ({ p with peer := peer, trace := p.trace ++ [.doTimeStep] }, none)
    | .ok (true, peer) =>
      let timeStep := p.timeStep + 1
      let filled := fillTimeStepData tdFile timeStep p.globals
      let p1 : Process σ :=
        { globals := filled.state, timeStep := timeStep, peer := peer
          trace := p.trace ++ [.doTimeStep, .fillTimeStepData timeStep] }
      match filled.error with
      | some err => some (p1, some err)
      | none =>
        match iterationLoop sc fuel p1 with
        | none => none
        | some (p2, some err) => some (p2, some err)
        | some (p2, none) => timeStepLoop sc tdFile fuel p2

/-- The run-mode branch of `main` (source lines 291 to 312). -/
def runMode {σ : Type} (sc : SystemCoupling σ) (tdFile : SaveFile) (fuel : Nat)
    (p : Process σ) : Option (Process σ × Option Error) :=
  match p.call .registerPointCloudAccess (sc.registerPointCloudAccess p.peer) with
  | (p1, some err) => some (p1, some err)
  | (p1, none) =>
    match p1.call .registerOutputScalarDataAccess
        (sc.registerOutputScalarDataAccess p1.peer) with
    | (p2, some err) => some (p2, some err)
    | (p2, none) =>
      match p2.call .registerRestartPointCreation
          (sc.registerRestartPointCreation p2.peer) with
      | (p3, some err) => some (p3, some err)
      | (p3, none) =>
        let filled := fillTimeStepData tdFile p3.timeStep p3.globals
        let p4 : Process σ :=
          { p3 with globals := filled.state
                    trace := p3.trace ++ [.fillTimeStepData p3.timeStep] }
        match filled.error with
        | some err => some (p4, some err)
        | none =>
          match p4.call .initializeAnalysis (sc.initializeAnalysis p4.view p4.peer) with
          | (p5, some err) => some (p5, some err)
          | (p5, none) => timeStepLoop sc tdFile fuel p5

/-- The loop of the setup-mode branch that declares one region per point cloud
(source lines 274 to 279). -/
def addRegions {σ : Type} (sc : SystemCoupling σ) :
    List String → Process σ → Process σ × Option Error
  | [], p => (p, none)
  | regionName :: rest, p =>
    match p.call (.addRegion regionName "Temperature")
        (sc.addRegion regionName "Temperature" p.peer) with
    | (p1, some err) => (p1, some err)
    | (p1, none) => addRegions sc rest p1

/-- The setup-mode branch of `main` (source lines 274 to 287). -/
def setupMode {σ : Type} (sc : SystemCoupling σ) (writeScp : Bool) (p : Process σ) :
    Process σ × Option Error :=
  match addRegions sc (Map.keys p.globals.pointClouds) p with
  | (p1, some err) => (p1, some err)
  | (p1, none) =>
    match p1.call .completeSetup (sc.completeSetup p1.peer) with
    | (p2, some err) => (p2, some err)
    | (p2, none) =>
      if writeScp then p2.call (.writeSetupFile "setup.scp") (sc.writeSetupFile "setup.scp" p2.peer)
      else (p2, none)

/-- How the process ends: `EXIT_SUCCESS`, `EXIT_FAILURE`, or an exception that leaves
`main` without being caught. -/
inductive Exit where
  | success
  | failure
  | uncaught
  deriving DecidableEq, Repr

/-- The handler `catch (const std::exception&)` of `main` catches the C++ exceptions;
a managed exception is not a `std::exception` and passes through it. -/
def caughtByHandler : Error → Bool
  | .indexOutOfRange => false
  | _ => true

/-- The function `main` from the construction of the `SystemCoupling` object onwards
(source lines 263 to 325); the flags `scsetup` and `writeScp` and the archive come from
the command line.  The result is `none` when a loop reaches the bound `fuel`. -/
def main {σ : Type} (sc : SystemCoupling σ) (tdFile : SaveFile) (scsetup writeScp : Bool)
    (fuel : Nat) : Option (Option (Process σ) × Exit) :=
  match sc.connect with
  | .error _ => some (none, .uncaught)
  | .ok peer =>
    let discovery := readData tdFile State.empty
    let p0 : Process σ :=
      { globals := discovery.state, timeStep := 0, peer := peer, trace := [.connect] }
    match discovery.error with
    | some _ => some (some p0, .uncaught)
    | none =>
      let guarded :=
        if scsetup then some (setupMode sc writeScp p0) else runMode sc tdFile fuel p0
      match guarded with
      | none => none
      | some (p1, some err) =>
        if caughtByHandler err then some (some p1, .failure) else some (some p1, .uncaught)
      | some (p1, none) =>
        match p1.call .disconnect (sc.disconnect p1.peer) with
        | (p2, some _) => some (some p2, .uncaught)
        | (p2, none) => some (some p2, .success)

/-- A peer stub that never fails: `doTimeStep` answers `true` once per entry of the
script, then `false`; within the time step of an entry `m`, `doIteration` answers `true`
`m` times, then `false`. -/
structure StubState where
  script : List Nat
  pending : Nat
  deriving DecidableEq, Repr

/-- The peer stub for a script of iteration counts, one per time step. -/
def stubPeer (iterations : List Nat) : SystemCoupling StubState where
  connect := .ok ⟨iterations, 0⟩
  addRegion := fun _ _ st => .ok st
  completeSetup := fun st => .ok st
  writeSetupFile := fun _ st => .ok st
  registerPointCloudAccess := fun st => .ok st
  registerOutputScalarDataAccess := fun st => .ok st
  registerRestartPointCreation := fun st => .ok st
  initializeAnalysis := fun _ st => .ok st
  doTimeStep := fun _ st =>
    match st.script with
    | [] => .ok (false, st)
    | m :: rest => .ok (true, ⟨rest, m⟩)
  doIteration := fun _ st =>
    match st.pending with
    | 0 => .ok (false, st)
    | k + 1 => .ok (true, { st with pending := k })
  updateInputs := fun _ st => .ok st
  updateOutputs := fun _ _ st => .ok st
  disconnect := fun st => .ok st

/-- The time-step index of a synchronisation call, for the other calls nothing. -/
def Event.fillIndex : Event → Option Int
  | .fillTimeStepData t => some t
  | _ => none

/-- Every one of the `count` synchronisations of the time steps `t + 1`, `t + 2`, ...
succeeds, each run on the globals the one before left. -/
def SyncsSucceed (tdFile : SaveFile) : Int → State → Nat → Prop
  | _, _, 0 => True
  | t, s, count + 1 =>
    (fillTimeStepData tdFile (t + 1) s).error = none ∧
      SyncsSucceed tdFile (t + 1) (fillTimeStepData tdFile (t + 1) s).state count

/-- An archive with one region of one node and three records. -/
def threeStepArchive : SaveFile where
  getRecordNumbers := [1, 2, 3]
  getUdfasAtRecord := fun _ => []
  getDataAtRecord := fun _ _ => []
  getThermalSubmodels := ["B"]
  getNodeIds := fun _ => [1]
  getInternalIndex := fun _ _ => 0
  getTemperatureData := fun _ => [[300, 301, 302]]

/-- The calls of one inner loop in which `doIteration` answers `true` `m` times. -/
def iterationTrace : Nat → List Event
  | 0 => [.doIteration]
  | m + 1 => [.doIteration, .updateInputs, .updateOutputs .NotEvaluated] ++ iterationTrace m

/-- The calls of the outer loop started at counter `t`, for a script of iteration counts. -/
def stepsTrace : Int → List Nat → List Event
  | _, [] => [.doTimeStep]
  | t, m :: rest =>
    [.doTimeStep, .fillTimeStepData (t + 1)] ++ iterationTrace m ++ stepsTrace (t + 1) rest

/-- The globals after the synchronisations of the time steps `t + 1`, ..., `t + count`. -/
def syncedState (tdFile : SaveFile) : Int → State → Nat → State
  | _, s, 0 => s
  | t, s, count + 1 =>
    syncedState tdFile (t + 1) (fillTimeStepData tdFile (t + 1) s).state count

/-- The archive with the field descriptors that lack the position marker removed from
every record. -/
def dropNonPosition (tdFile : SaveFile) : SaveFile :=
  { tdFile with
    getUdfasAtRecord := fun currRecordNum =>
      (tdFile.getUdfasAtRecord currRecordNum).filter
        (fun d => contains d.sindaDesignator "POS_") }

/-- The part of the globals a synchronisation has no assignment for: the regions list,
the global id index, the names under which point clouds and solution data are stored,
and the `ids` sequence of every point cloud. -/
def SameFrame (s s' : State) : Prop :=
  s'.regions = s.regions ∧
    s'.globalIdToRegionIndex = s.globalIdToRegionIndex ∧
    Map.keys s'.pointClouds = Map.keys s.pointClouds ∧
    Map.keys s'.solutionData = Map.keys s.solutionData ∧
    s'.pointClouds.map (fun e => (e.1, e.2.ids)) = s.pointClouds.map (fun e => (e.1, e.2.ids))

/-- An archive with two records whose only temperature series has a single value: at
time step 1 the position field can be read, the temperature cannot. -/
def partialArchive : SaveFile where
  getRecordNumbers := [1, 2]
  getUdfasAtRecord := fun _ => [⟨"POS_X"⟩]
  getDataAtRecord := fun _ _ => [1.5]
  getThermalSubmodels := ["B"]
  getNodeIds := fun _ => [1]
  getInternalIndex := fun _ _ => 0
  getTemperatureData := fun _ => [[300]]

/-- The state of the stores right after discovery, as the specification describes it:
every region has a point cloud whose coordinates are all zero, and its solution data
consist of the single field `Temperature`, with the value 300 for every node. -/
def FreshState (s : State) : Prop :=
  ∀ r ∈ s.regions, ∃ pc,
    Map.find s.pointClouds r.getName = some pc ∧
    pc.coords = List.replicate pc.size Vector.zero ∧
    Map.find s.solutionData r.getName = some [("Temperature", List.replicate pc.size 300)]

/-- The invariant of discovery on the stored values: all coordinates are zero, and every
solution-data entry is the single field `Temperature` with the value 300 throughout. -/
def DefaultValues (s : State) : Prop :=
  (∀ name pc, Map.find s.pointClouds name = some pc →
    pc.coords = List.replicate pc.coords.length Vector.zero) ∧
  (∀ name vd, Map.find s.solutionData name = some vd →
    ∃ n, vd = [("Temperature", List.replicate n 300)])

/-- The calls of one time step with counter value `t` in which `doIteration` answers
`true` exactly `m` times: the step is announced and synchronised, every pending iteration
is answered by `updateInputs` followed by `updateOutputs` with the status `NotEvaluated`,
and the last `doIteration` answers `false`. -/
def stepCalls (t : Int) (m : Nat) : List Event :=
  [.doTimeStep, .fillTimeStepData t] ++
    (List.replicate m [.doIteration, .updateInputs, .updateOutputs .NotEvaluated]).flatten ++
    [.doIteration]

/-- The calls of the whole outer loop started at counter `t`: one block per time step,
then the `doTimeStep` that answers `false`. -/
def runCalls : Int → List Nat → List Event
  | _, [] => [.doTimeStep]
  | t, m :: rest => stepCalls (t + 1) m ++ runCalls (t + 1) rest

/-- A peer whose handshake `initializeAnalysis` fails; every other call succeeds and
`doTimeStep` answers `false`. -/
def failingPeer : SystemCoupling Unit where
  connect := .ok ()
  addRegion := fun _ _ st => .ok st
  completeSetup := fun st => .ok st
  writeSetupFile := fun _ st => .ok st
  registerPointCloudAccess := fun st => .ok st
  registerOutputScalarDataAccess := fun st => .ok st
  registerRestartPointCreation := fun st => .ok st
  initializeAnalysis := fun _ _ => .error .peerFailure
  doTimeStep := fun _ st => .ok (false, st)
  doIteration := fun _ st => .ok (false, st)
  updateInputs := fun _ st => .ok st
  updateOutputs := fun _ _ st => .ok st
  disconnect := fun st => .ok st

/-- The calls issued by a run of `main` and the way it ended, when it ended. -/
def callsAndExit {σ : Type} (result : Option (Option (Process σ) × Exit)) :
    Option (List Event × Exit) :=
  match result with
  | none => none
  | some (none, exit) => some ([], exit)
  | some (some p, exit) => some (p.trace, exit)

/-- An archive whose submodel `B` has two nodes but only one temperature series. -/
def shortSeriesArchive : SaveFile where
  getRecordNumbers := [1]
  getUdfasAtRecord := fun _ => []
  getDataAtRecord := fun _ _ => []
  getThermalSubmodels := ["B"]
  getNodeIds := fun _ => [1, 2]
  getInternalIndex := fun _ id => (id - 1).toNat
  getTemperatureData := fun _ => [[310]]

/-- An archive whose record carries two field descriptors with values, neither of them
with the position marker. -/
def noPositionArchive : SaveFile where
  getRecordNumbers := [1, 2]
  getUdfasAtRecord := fun _ => [⟨"REG.TEMP"⟩, ⟨"REG.FLUX"⟩]
  getDataAtRecord := fun _ _ => [7, 8]
  getThermalSubmodels := ["B"]
  getNodeIds := fun _ => [1, 2]
  getInternalIndex := fun _ id => (id - 1).toNat
  getTemperatureData := fun _ => [[310, 311], [320, 321]]

/-! # Theorems -/

theorem Map.find_nil {β : Type} (k : String) : Map.find ([] : Map β) k = none := rfl

theorem Map.find_cons {β : Type} (m : Map β) (k k' : String) (v : β) :
    Map.find ((k', v) :: m) k = if k = k' then some v else Map.find m k := by
  unfold Map.find
  rw [List.lookup_cons]
  by_cases h : k = k'
  · simp [h]
  · have : (k == k') = false := by simpa using h
    simp [h, this]

theorem Map.find_modify {β : Type} (m : Map β) (k k' : String) (f : β → β) :
    Map.find (Map.modify m k f) k' =
      if k' = k then (Map.find m k').map f else Map.find m k' := by
  induction m with
  | nil => simp [Map.modify, Map.find_nil]
  | cons e rest ih =>
    obtain ⟨a, b⟩ := e
    have hstep : Map.modify ((a, b) :: rest) k f =
        (if a = k then (a, f b) else (a, b)) :: Map.modify rest k f := by
      simp [Map.modify]
    rw [hstep]
    by_cases hak : a = k
    · subst hak
      simp only [if_true, Map.find_cons, ih]
      by_cases hk : k' = a
      · simp [hk]
      · simp [hk]
    · simp only [hak, if_false, Map.find_cons, ih]
      by_cases hk : k' = a
      · have : ¬ k' = k := by rw [hk]; exact hak
        simp [hk, this, hak]
      · simp [hk]

theorem Map.find_insertSorted {β : Type} (m : Map β) (k k' : String) (v : β)
    (h : Map.find m k = none) :
    Map.find (Map.insertSorted k v m) k' = if k' = k then some v else Map.find m k' := by
  induction m with
  | nil => simp [Map.insertSorted, Map.find_cons, Map.find_nil]
  | cons e rest ih =>
    obtain ⟨a, b⟩ := e
    rw [Map.find_cons] at h
    have hka : ¬ k = a := by
      intro hka
      simp [hka] at h
    have hrest : Map.find rest k = none := by simpa [hka] using h
    unfold Map.insertSorted
    by_cases hlt : k.data < a.data
    · simp only [hlt, if_true, Map.find_cons]
    · simp only [hlt, if_false, Map.find_cons, ih hrest]
      by_cases h1 : k' = a
      · have hak : ¬ a = k := fun h => hka h.symm
        simp [h1, hak]
      · simp [h1]

theorem Map.find_emplace {β : Type} (m : Map β) (k k' : String) (v : β) :
    Map.find (Map.emplace m k v) k' =
      if k' = k then some ((Map.find m k).getD v) else Map.find m k' := by
  unfold Map.emplace
  cases hf : Map.find m k with
  | none =>
    simp only [Option.isSome_none, Bool.false_eq_true, if_false, Option.getD_none]
    exact Map.find_insertSorted m k k' v hf
  | some b =>
    simp only [Option.isSome_some, if_true, Option.getD_some]
    by_cases hk : k' = k
    · simp [hk, hf]
    · simp [hk]

/-! ## Loops -/

theorem forEach_nil {α : Type} (body : α → State → Outcome) (s : State) :
    forEach body [] s = ⟨s, none⟩ := rfl

theorem forEach_cons {α : Type} (body : α → State → Outcome) (a : α) (rest : List α)
    (s : State) :
    forEach body (a :: rest) s =
      if (body a s).error.isSome then body a s else forEach body rest (body a s).state := rfl

/-- A property of the globals kept by every iteration is kept by the loop, also when
the loop is left by an exception. -/
theorem forEach_preserves {α : Type} (P : State → Prop) (body : α → State → Outcome)
    (hbody : ∀ a s, P s → P (body a s).state) (l : List α) (s : State) (h : P s) :
    P (forEach body l s).state := by
  induction l generalizing s with
  | nil => exact h
  | cons a rest ih =>
    rw [forEach_cons]
    by_cases he : (body a s).error.isSome
    · simp only [he, if_true]
      exact hbody a s h
    · simp only [he, if_false]
      exact ih _ (hbody a s h)

/-- A loop whose iterations never throw does not throw. -/
theorem forEach_no_error {α : Type} (body : α → State → Outcome)
    (hbody : ∀ a s, (body a s).error = none) (l : List α) (s : State) :
    (forEach body l s).error = none := by
  induction l generalizing s with
  | nil => rfl
  | cons a rest ih =>
    rw [forEach_cons]
    simp [hbody a s, ih]

theorem foldl_preserves {α : Type} (P : State → Prop) (step : State → α → State)
    (hstep : ∀ s a, P s → P (step s a)) (l : List α) (s : State) (h : P s) :
    P (l.foldl step s) := by
  induction l generalizing s with
  | nil => exact h
  | cons a rest ih => exact ih _ (hstep s a h)

/-! ## Discovery never throws -/

theorem readSubmodel_eq (tdFile : SaveFile) (submodel : String) (s : State) :
    readSubmodel tdFile submodel s =
      if isEmptyRegion tdFile submodel then ⟨s, none⟩
      else ⟨(tdFile.getNodeIds submodel).foldl
        (readNode tdFile submodel submodel s.regions.length) (openRegion submodel s), none⟩ := by
  unfold readSubmodel
  by_cases he : isEmptyRegion tdFile submodel
  · simp [he]
  · simp only [he, Bool.false_eq_true, if_false, Map.find_emplace, Map.find_modify, if_true,
      Option.map_some', Option.some_bind]
    rfl

/-! ## The invariant `Balanced` -/

theorem balanced_empty : Balanced State.empty := by
  refine ⟨?_, ?_, ?_⟩
  · intro r hr
    simp [State.empty] at hr
  · intro name pc h
    simp [State.empty, Map.find_nil] at h
  · intro name _
    rfl

theorem balanced_openRegion (regionName : String) (s : State) (h : Balanced s) :
    Balanced (openRegion regionName s) := by
  obtain ⟨h1, h2, h3⟩ := h
  refine ⟨?_, ?_, ?_⟩
  · intro r hr
    simp only [openRegion, List.mem_append, List.mem_singleton] at hr
    simp only [openRegion, Map.find_emplace]
    by_cases hn : r.getName = regionName
    · simp [hn]
    · simp only [hn, if_false]
      rcases hr with hr | hr
      · exact h1 r hr
      · exact absurd (by rw [hr]; rfl) hn
  · intro name pc hpc
    simp only [openRegion, Map.find_emplace, Map.find_modify] at hpc ⊢
    by_cases hn : name = regionName
    · subst hn
      simp only [if_true, Option.some.injEq] at hpc
      simp only [if_true, Option.map_some']
      cases hf : Map.find s.pointClouds name with
      | none =>
        rw [hf] at hpc
        simp only [Option.getD_none] at hpc
        subst hpc
        rw [h3 name hf]
        simp [Map.find_emplace, Map.find_nil]
      | some pc0 =>
        rw [hf] at hpc
        simp only [Option.getD_some] at hpc
        subst hpc
        obtain ⟨hl, vd, t, hvd, ht, hlen⟩ := h2 name pc0 hf
        refine ⟨hl, ?_⟩
        simp [hvd, Map.find_emplace, ht, hlen]
    · simp only [hn, if_false] at hpc ⊢
      exact h2 name pc hpc
  · intro name hnone
    simp only [openRegion, Map.find_emplace, Map.find_modify] at hnone ⊢
    by_cases hn : name = regionName
    · simp [hn] at hnone
    · simp only [hn, if_false] at hnone ⊢
      exact h3 name hnone

theorem balanced_readNode (tdFile : SaveFile) (submodel regionName : String) (regionIndex : Nat)
    (s : State) (id : Int) (h : Balanced s) :
    Balanced (readNode tdFile submodel regionName regionIndex s id) := by
  obtain ⟨h1, h2, h3⟩ := h
  refine ⟨?_, ?_, ?_⟩
  · intro r hr
    have := h1 r hr
    simp only [readNode, Map.find_modify]
    split <;> simpa using this
  · intro name pc hpc
    simp only [readNode, Map.find_modify] at hpc ⊢
    by_cases hn : name = regionName
    · simp only [hn, if_true] at hpc ⊢
      cases hf : Map.find s.pointClouds regionName with
      | none => simp [hf] at hpc
      | some pc0 =>
        rw [hf] at hpc
        simp only [Option.map_some', Option.some.injEq] at hpc
        subst hpc
        obtain ⟨hl, vd, t, hvd, ht, hlen⟩ := h2 regionName pc0 hf
        refine ⟨by simp [hl], ?_⟩
        simp [hvd, Map.find_modify, ht, hlen]
    · simp only [hn, if_false] at hpc ⊢
      exact h2 name pc hpc
  · intro name hnone
    simp only [readNode, Map.find_modify] at hnone ⊢
    by_cases hn : name = regionName
    · simp only [hn, if_true, Option.map_eq_none'] at hnone ⊢
      exact h3 _ hnone
    · simp only [hn, if_false] at hnone ⊢
      exact h3 name hnone

theorem balanced_readSubmodel (tdFile : SaveFile) (submodel : String) (s : State)
    (h : Balanced s) : Balanced (readSubmodel tdFile submodel s).state := by
  rw [readSubmodel_eq]
  by_cases he : isEmptyRegion tdFile submodel
  · simpa [he] using h
  · simp only [he, Bool.false_eq_true, if_false]
    exact foldl_preserves Balanced _ (fun s a hs => balanced_readNode _ _ _ _ s a hs) _ _
      (balanced_openRegion submodel s h)

theorem balanced_readData (tdFile : SaveFile) (s : State) (h : Balanced s) :
    Balanced (readData tdFile s).state :=
  forEach_preserves Balanced _ (fun a s hs => balanced_readSubmodel tdFile a s hs) _ s h

theorem setCoord_length (coords : List Vector) (localId : Nat) (dim : Fin 3) (v : Double) :
    (setCoord coords localId dim v).length = coords.length := by
  unfold setCoord
  split <;> simp

/-- The effect of one iteration of the position loop on the globals: nothing, or
one coordinate component written. -/
theorem writeCoord_state (d : String) (entry : Nat × Double) (s : State) :
    (writeCoord d entry s).state = s ∨
    ∃ name localId dim, (writeCoord d entry s).state =
      storeCoord s name localId dim entry.2 := by
  unfold writeCoord
  split
  · exact Or.inl rfl
  · split
    · exact Or.inl rfl
    · split
      · exact Or.inl rfl
      · split
        · exact Or.inl rfl
        · split
          · exact Or.inr ⟨_, _, _, rfl⟩
          · exact Or.inl rfl

/-- The effect of one iteration of the temperature loop on the globals: nothing, or
one temperature value written. -/
theorem writeTemperature_state (regionName : String) (timeStep : Int)
    (entry : Nat × List Double) (s : State) :
    (writeTemperature regionName timeStep entry s).state = s ∨
    ∃ v, (writeTemperature regionName timeStep entry s).state =
      storeTemperature s regionName entry.1 v := by
  unfold writeTemperature
  split
  · exact Or.inl rfl
  · split
    · exact Or.inl rfl
    · split
      · exact Or.inl rfl
      · split
        · exact Or.inr ⟨_, rfl⟩
        · exact Or.inl rfl

theorem balanced_storeCoord (s : State) (name : String) (localId : Nat) (dim : Fin 3)
    (v : Double) (h : Balanced s) : Balanced (storeCoord s name localId dim v) := by
  obtain ⟨h1, h2, h3⟩ := h
  refine ⟨?_, ?_, ?_⟩
  · intro r hr
    have := h1 r hr
    simp only [storeCoord, Map.find_modify]
    split <;> simpa using this
  · intro name' pc hpc
    simp only [storeCoord, Map.find_modify] at hpc
    by_cases hn : name' = name
    · simp only [hn, if_true] at hpc
      cases hf : Map.find s.pointClouds name with
      | none => simp [hf] at hpc
      | some pc0 =>
        rw [hf] at hpc
        simp only [Option.map_some', Option.some.injEq] at hpc
        subst hpc
        obtain ⟨hl, vd, t, hvd, ht, hlen⟩ := h2 name pc0 hf
        refine ⟨by simp [hl, setCoord_length], vd, t, ?_, ht, by simp [setCoord_length, hlen]⟩
        rw [hn]; exact hvd
    · simp only [hn, if_false] at hpc
      exact h2 name' pc hpc
  · intro name' hnone
    simp only [storeCoord, Map.find_modify] at hnone
    by_cases hn : name' = name
    · simp only [hn, if_true, Option.map_eq_none'] at hnone
      rw [hn]; exact h3 _ hnone
    · simp only [hn, if_false] at hnone
      exact h3 name' hnone

theorem balanced_storeTemperature (s : State) (name : String) (index : Nat)
    (v : Double) (h : Balanced s) : Balanced (storeTemperature s name index v) := by
  obtain ⟨h1, h2, h3⟩ := h
  refine ⟨h1, ?_, ?_⟩
  · intro name' pc hpc
    obtain ⟨hl, vd, t, hvd, ht, hlen⟩ := h2 name' pc hpc
    refine ⟨hl, ?_⟩
    simp only [storeTemperature, Map.find_modify]
    by_cases hn : name' = name
    · subst hn
      simp [hvd, Map.find_modify, ht, hlen]
    · simp only [hn, if_false]
      exact ⟨vd, t, hvd, ht, hlen⟩
  · intro name' hnone
    have := h3 name' hnone
    simp only [storeTemperature, Map.find_modify]
    split <;> simp [this]

theorem balanced_writeCoord (d : String) (entry : Nat × Double) (s : State) (h : Balanced s) :
    Balanced (writeCoord d entry s).state := by
  rcases writeCoord_state d entry s with hs | ⟨name, localId, dim, hs⟩
  · rw [hs]; exact h
  · rw [hs]; exact balanced_storeCoord s name localId dim entry.2 h

theorem balanced_writeTemperature (regionName : String) (timeStep : Int)
    (entry : Nat × List Double) (s : State) (h : Balanced s) :
    Balanced (writeTemperature regionName timeStep entry s).state := by
  rcases writeTemperature_state regionName timeStep entry s with hs | ⟨v, hs⟩
  · rw [hs]; exact h
  · rw [hs]; exact balanced_storeTemperature s regionName entry.1 v h

theorem balanced_fillTimeStepData (tdFile : SaveFile) (timeStep : Int) (s : State)
    (h : Balanced s) : Balanced (fillTimeStepData tdFile timeStep s).state := by
  unfold fillTimeStepData
  split
  · exact h
  · rename_i currRecordNum _
    have hpos : Balanced (forEach (fillPosition tdFile currRecordNum)
        (tdFile.getUdfasAtRecord currRecordNum) s).state := by
      apply forEach_preserves Balanced _ _ _ s h
      intro d s' hs'
      unfold fillPosition
      split
      · exact hs'
      · exact forEach_preserves Balanced _ (fun e s'' hs'' => balanced_writeCoord _ e s'' hs'')
          _ s' hs'
    simp only
    split
    · exact hpos
    · apply forEach_preserves Balanced _ _ _ _ hpos
      intro sub s' hs'
      unfold fillTemperature
      simp only
      split
      · exact hs'
      · exact forEach_preserves Balanced _
          (fun e s'' hs'' => balanced_writeTemperature _ _ e s'' hs'') _ s' hs'

theorem balanced_afterSteps (tdFile : SaveFile) (steps : List Int) :
    Balanced (afterSteps tdFile steps) := by
  unfold afterSteps
  exact foldl_preserves Balanced _ (fun s t hs => balanced_fillTimeStepData tdFile t s hs) _ _
    (balanced_readData tdFile _ balanced_empty)

theorem equalLengths_of_balanced (s : State) (h : Balanced s) : EqualLengths s := by
  intro r hr
  obtain ⟨h1, h2, _⟩ := h
  have hsome := h1 r hr
  obtain ⟨pc, hpc⟩ := Option.isSome_iff_exists.mp hsome
  obtain ⟨hl, vd, t, hvd, ht, hlen⟩ := h2 _ pc hpc
  exact ⟨pc, vd, t, hpc, hvd, ht, hl, hlen⟩

/-- C1: for every archive and every sequence of synchronisations run after discovery
(successful or not), every region has `ids`, `coords` and `Temperature` of one length. -/
theorem equal_lengths_after_discovery_and_steps (tdFile : SaveFile) (steps : List Int) :
    EqualLengths (afterSteps tdFile steps) :=
  equalLengths_of_balanced _ (balanced_afterSteps tdFile steps)

/-! ## The global id index -/

theorem storeIndex_length (index : List (Nat × Nat)) (g : Nat) (e : Nat × Nat) :
    (storeIndex index g e).length = max index.length (g + 1) := by
  unfold storeIndex resize
  by_cases h : index.length < g + 1
  · simp only [h, if_true, List.length_set, List.length_append, List.length_take,
      List.length_replicate]
    omega
  · simp only [h, if_false, List.length_set]
    omega

theorem entryAt_storeIndex (index : List (Nat × Nat)) (g g' : Nat) (e : Nat × Nat) :
    entryAt (storeIndex index g e) g' = if g' = g then e else entryAt index g' := by
  unfold entryAt storeIndex resize
  by_cases h : index.length < g + 1
  · simp only [h, if_true]
    have htake : List.take (g + 1) index = index := List.take_of_length_le (by omega)
    rw [htake]
    by_cases hg : g' = g
    · subst hg
      simp only [if_true]
      rw [List.getElem?_set_self (by simp; omega)]
      rfl
    · simp only [hg, if_false]
      rw [List.getElem?_set_ne (fun h' => hg h'.symm)]
      by_cases hlt : g' < index.length
      · rw [List.getElem?_append_left hlt]
      · rw [List.getElem?_append_right (by omega)]
        rw [List.getElem?_eq_none (l := index) (by omega)]
        by_cases hr : g' - index.length < g + 1 - index.length
        · rw [List.getElem?_replicate]
          simp [hr]
        · rw [List.getElem?_eq_none (by simp; omega)]
  · simp only [h, if_false]
    by_cases hg : g' = g
    · subst hg
      simp only [if_true]
      rw [List.getElem?_set_self (by omega)]
      rfl
    · simp only [hg, if_false]
      rw [List.getElem?_set_ne (fun h' => hg h'.symm)]

theorem Map.modify_modify {β : Type} (m : Map β) (k : String) (f h : β → β) :
    Map.modify (Map.modify m k f) k h = Map.modify m k (fun b => h (f b)) := by
  unfold Map.modify
  rw [List.map_map]
  apply List.map_congr_left
  intro e _
  by_cases he : e.1 = k <;> simp [he]

theorem Map.modify_id {β : Type} (m : Map β) (k : String) :
    Map.modify m k (fun b => b) = m := by
  unfold Map.modify
  conv_rhs => rw [← List.map_id m]
  apply List.map_congr_left
  intro e _
  by_cases he : e.1 = k
  · simp only [he, if_true, id]
    rw [← he]
  · simp [he]

theorem Map.modify_congr {β : Type} (m : Map β) (k : String) (f h : β → β)
    (hfh : ∀ b, f b = h b) : Map.modify m k f = Map.modify m k h := by
  have : f = h := funext hfh
  rw [this]

/-! ## The loop over the nodes of a submodel -/

theorem foldl_readNode_regions (tdFile : SaveFile) (submodel name : String) (r : Nat)
    (ids : List Int) (s : State) :
    ((ids.foldl (readNode tdFile submodel name r) s)).regions = s.regions := by
  induction ids generalizing s with
  | nil => rfl
  | cons a rest ih => rw [List.foldl_cons, ih]; rfl

theorem foldl_readNode_index (tdFile : SaveFile) (submodel name : String) (r : Nat)
    (ids : List Int) (s : State) :
    ((ids.foldl (readNode tdFile submodel name r) s)).globalIdToRegionIndex =
      indexNodes tdFile submodel r s.globalIdToRegionIndex ids := by
  induction ids generalizing s with
  | nil => rfl
  | cons a rest ih =>
    rw [List.foldl_cons, ih]
    rfl

theorem foldl_readNode_pointClouds (tdFile : SaveFile) (submodel name : String) (r : Nat)
    (ids : List Int) (s : State) :
    ((ids.foldl (readNode tdFile submodel name r) s)).pointClouds =
      Map.modify s.pointClouds name
        (fun pc => pc.extend (ids.map (tdFile.getInternalIndex submodel))) := by
  induction ids generalizing s with
  | nil =>
    simp only [List.foldl_nil, List.map_nil]
    have : (fun pc : PointCloud => pc.extend []) = fun pc => pc := by
      funext pc
      simp [PointCloud.extend]
    rw [this, Map.modify_id]
  | cons a rest ih =>
    rw [List.foldl_cons, ih]
    simp only [readNode, Map.modify_modify]
    apply Map.modify_congr
    intro pc
    simp [PointCloud.extend, List.replicate_succ]

theorem foldl_readNode_solutionData (tdFile : SaveFile) (submodel name : String) (r : Nat)
    (ids : List Int) (s : State) :
    ((ids.foldl (readNode tdFile submodel name r) s)).solutionData =
      Map.modify s.solutionData name (fun vd => Map.modify vd "Temperature"
        (fun t => t ++ List.replicate ids.length 300)) := by
  induction ids generalizing s with
  | nil =>
    simp only [List.foldl_nil, List.length_nil, List.replicate_zero, List.append_nil]
    have : (fun vd : VariableData => Map.modify vd "Temperature" (fun t => t)) = fun vd => vd := by
      funext vd
      exact Map.modify_id vd _
    rw [this, Map.modify_id]
  | cons a rest ih =>
    rw [List.foldl_cons, ih]
    simp only [readNode, Map.modify_modify]
    apply Map.modify_congr
    intro vd
    apply Map.modify_congr
    intro t
    simp [List.replicate_succ]

theorem indexNodes_cons (tdFile : SaveFile) (m : String) (r : Nat) (index : List (Nat × Nat))
    (a : Int) (rest : List Int) :
    indexNodes tdFile m r index (a :: rest) =
      indexNodes tdFile m r
        (storeIndex index (tdFile.getInternalIndex m a) (r, localIdOf a)) rest := rfl

theorem indexNodes_length_le (tdFile : SaveFile) (m : String) (r : Nat)
    (ids : List Int) (index : List (Nat × Nat)) :
    index.length ≤ (indexNodes tdFile m r index ids).length := by
  induction ids generalizing index with
  | nil => exact Nat.le_refl _
  | cons a rest ih =>
    rw [indexNodes_cons]
    refine Nat.le_trans ?_ (ih _)
    rw [storeIndex_length]
    exact Nat.le_max_left _ _

/-- Entering the nodes of a submodel leaves alone every entry that is not the global
id of one of them. -/
theorem indexNodes_frame (tdFile : SaveFile) (m : String) (r : Nat) (g : Nat)
    (ids : List Int) (index : List (Nat × Nat))
    (h : ∀ id ∈ ids, tdFile.getInternalIndex m id ≠ g) :
    entryAt (indexNodes tdFile m r index ids) g = entryAt index g := by
  induction ids generalizing index with
  | nil => rfl
  | cons a rest ih =>
    rw [indexNodes_cons, ih _ (fun id hid => h id (List.mem_cons_of_mem _ hid)),
      entryAt_storeIndex]
    have : ¬ g = tdFile.getInternalIndex m a := fun hg => h a (List.mem_cons_self _ _) hg.symm
    simp [this]

/-- After the nodes of a submodel have been entered, the entry at the global id of each
of them is its region index and local id, provided no other node id of the submodel
shares that global id. -/
theorem indexNodes_written (tdFile : SaveFile) (m : String) (r : Nat)
    (ids : List Int) (index : List (Nat × Nat)) (id : Int) (hid : id ∈ ids)
    (hinj : ∀ id2 ∈ ids, tdFile.getInternalIndex m id2 = tdFile.getInternalIndex m id →
      id2 = id) :
    entryAt (indexNodes tdFile m r index ids) (tdFile.getInternalIndex m id) =
        (r, localIdOf id) ∧
      tdFile.getInternalIndex m id < (indexNodes tdFile m r index ids).length := by
  induction ids generalizing index with
  | nil => simp at hid
  | cons a rest ih =>
    rw [indexNodes_cons]
    by_cases hmem : id ∈ rest
    · exact ih _ hmem (fun id2 h2 => hinj id2 (List.mem_cons_of_mem _ h2))
    · have ha : id = a := by
        rcases List.mem_cons.mp hid with h | h
        · exact h
        · exact absurd h hmem
      subst ha
      constructor
      · rw [indexNodes_frame]
        · rw [entryAt_storeIndex]
          simp
        · intro id2 h2 heq
          have := hinj id2 (List.mem_cons_of_mem _ h2) heq
          exact hmem (this ▸ h2)
      · refine Nat.lt_of_lt_of_le ?_ (indexNodes_length_le _ _ _ _ _)
        rw [storeIndex_length]
        omega

/-! ## The loop over the submodels -/

theorem readSubmodel_skip (tdFile : SaveFile) (m : String) (s : State)
    (h : isEmptyRegion tdFile m = true) : readSubmodel tdFile m s = ⟨s, none⟩ := by
  rw [readSubmodel_eq]
  simp [h]

theorem readSubmodel_error (tdFile : SaveFile) (m : String) (s : State) :
    (readSubmodel tdFile m s).error = none := by
  rw [readSubmodel_eq]
  split <;> rfl

theorem readData_cons (tdFile : SaveFile) (m : String) (rest : List String) (s : State) :
    forEach (readSubmodel tdFile) (m :: rest) s =
      forEach (readSubmodel tdFile) rest (readSubmodel tdFile m s).state := by
  rw [forEach_cons]
  simp [readSubmodel_error]

theorem readSubmodel_regions (tdFile : SaveFile) (m : String) (s : State) :
    (readSubmodel tdFile m s).state.regions =
      s.regions ++ (discovered tdFile [m]).map mkRegion := by
  rw [readSubmodel_eq]
  by_cases he : isEmptyRegion tdFile m
  · simp [he, discovered]
  · simp only [he, Bool.false_eq_true, if_false, foldl_readNode_regions]
    simp [discovered, he, openRegion, mkRegion]

theorem readSubmodel_index (tdFile : SaveFile) (m : String) (s : State) :
    (readSubmodel tdFile m s).state.globalIdToRegionIndex =
      if isEmptyRegion tdFile m then s.globalIdToRegionIndex
      else indexNodes tdFile m s.regions.length s.globalIdToRegionIndex
        (tdFile.getNodeIds m) := by
  rw [readSubmodel_eq]
  by_cases he : isEmptyRegion tdFile m
  · simp [he]
  · simp only [he, Bool.false_eq_true, if_false, foldl_readNode_index]
    rfl

theorem discovered_cons (tdFile : SaveFile) (m : String) (rest : List String) :
    discovered tdFile (m :: rest) = discovered tdFile [m] ++ discovered tdFile rest := by
  unfold discovered
  rw [← List.filter_append]
  rfl

theorem mem_discovered (tdFile : SaveFile) (l : List String) (m : String) :
    m ∈ discovered tdFile l ↔ m ∈ l ∧ isEmptyRegion tdFile m = false := by
  simp [discovered]

/-- The regions after discovery: one per submodel that is not skipped, appended in
archive order. -/
theorem readData_regions (tdFile : SaveFile) (l : List String) (s : State) :
    (forEach (readSubmodel tdFile) l s).state.regions =
      s.regions ++ (discovered tdFile l).map mkRegion := by
  induction l generalizing s with
  | nil => simp [forEach_nil, discovered]
  | cons m rest ih =>
    rw [readData_cons, ih, readSubmodel_regions]
    conv_rhs => rw [discovered_cons]
    simp

theorem readData_index_length_le (tdFile : SaveFile) (l : List String) (s : State) :
    s.globalIdToRegionIndex.length ≤
      (forEach (readSubmodel tdFile) l s).state.globalIdToRegionIndex.length := by
  induction l generalizing s with
  | nil => exact Nat.le_refl _
  | cons m rest ih =>
    rw [readData_cons]
    refine Nat.le_trans ?_ (ih _)
    rw [readSubmodel_index]
    split
    · exact Nat.le_refl _
    · exact indexNodes_length_le _ _ _ _ _

/-- Discovery leaves alone every index entry that is not the global id of a node of a
submodel it does not skip. -/
theorem readData_index_frame (tdFile : SaveFile) (g : Nat) (l : List String) (s : State)
    (h : ∀ m ∈ discovered tdFile l, ∀ id ∈ tdFile.getNodeIds m,
      tdFile.getInternalIndex m id ≠ g) :
    entryAt (forEach (readSubmodel tdFile) l s).state.globalIdToRegionIndex g =
      entryAt s.globalIdToRegionIndex g := by
  induction l generalizing s with
  | nil => rfl
  | cons m rest ih =>
    rw [readData_cons, ih]
    · rw [readSubmodel_index]
      by_cases he : isEmptyRegion tdFile m
      · simp [he]
      · simp only [he, Bool.false_eq_true, if_false]
        apply indexNodes_frame
        intro id hid
        apply h m _ id hid
        rw [mem_discovered]
        exact ⟨List.mem_cons_self _ _, by simpa using he⟩
    · intro m' hm' id hid
      apply h m' _ id hid
      rw [mem_discovered] at hm' ⊢
      exact ⟨List.mem_cons_of_mem _ hm'.1, hm'.2⟩

theorem PointCloud.extend_extend (pc : PointCloud) (a b : List Nat) :
    (pc.extend a).extend b = pc.extend (a ++ b) := by
  simp [PointCloud.extend]

theorem PointCloud.extend_nil (pc : PointCloud) : pc.extend [] = pc := by
  simp [PointCloud.extend]

theorem readSubmodel_pointClouds (tdFile : SaveFile) (m name : String) (s : State) :
    Map.find (readSubmodel tdFile m s).state.pointClouds name =
      if isEmptyRegion tdFile m = false ∧ name = m then
        some (((Map.find s.pointClouds m).getD ⟨[], []⟩).extend (nodeGlobalIds tdFile m))
      else Map.find s.pointClouds name := by
  rw [readSubmodel_eq]
  by_cases he : isEmptyRegion tdFile m
  · simp [he]
  · simp only [he, Bool.false_eq_true, if_false, foldl_readNode_pointClouds, Map.find_modify,
      openRegion, Map.find_emplace]
    by_cases hn : name = m
    · simp [hn, nodeGlobalIds]
    · simp [hn]

theorem discoveredIds_of_not_mem (tdFile : SaveFile) (l : List String) (name : String)
    (h : name ∉ discovered tdFile l) : discoveredIds tdFile l name = [] := by
  induction l with
  | nil => rfl
  | cons m rest ih =>
    rw [discovered_cons, List.mem_append, not_or] at h
    unfold discoveredIds
    rw [ih h.2]
    have : ¬ (isEmptyRegion tdFile m = false ∧ m = name) := by
      rintro ⟨h1, h2⟩
      apply h.1
      rw [mem_discovered]
      exact ⟨by rw [h2]; exact List.mem_singleton_self _, by rw [← h2]; exact h1⟩
    simp [this]

/-- The point cloud stored under a name after discovery: created if need be by the first
submodel of that name that is not skipped, and extended by the nodes of each of them. -/
theorem readData_pointClouds (tdFile : SaveFile) (name : String) (l : List String)
    (s : State) :
    Map.find (forEach (readSubmodel tdFile) l s).state.pointClouds name =
      if name ∈ discovered tdFile l then
        some (((Map.find s.pointClouds name).getD ⟨[], []⟩).extend
          (discoveredIds tdFile l name))
      else Map.find s.pointClouds name := by
  induction l generalizing s with
  | nil => simp [forEach_nil, discovered]
  | cons m rest ih =>
    rw [readData_cons, ih, readSubmodel_pointClouds]
    have hmem : name ∈ discovered tdFile (m :: rest) ↔
        (isEmptyRegion tdFile m = false ∧ name = m) ∨ name ∈ discovered tdFile rest := by
      rw [discovered_cons, List.mem_append, mem_discovered]
      simp only [List.mem_singleton]
      constructor
      · rintro (⟨h1, h2⟩ | h)
        · exact Or.inl ⟨h1 ▸ h2, h1⟩
        · exact Or.inr h
      · rintro (⟨h1, h2⟩ | h)
        · exact Or.inl ⟨h2, h2 ▸ h1⟩
        · exact Or.inr h
    by_cases hm : isEmptyRegion tdFile m = false ∧ name = m
    · obtain ⟨he, hn⟩ := hm
      subst hn
      have hin : name ∈ discovered tdFile (name :: rest) := hmem.mpr (Or.inl ⟨he, rfl⟩)
      simp only [he, and_self, if_true, hin, Option.getD_some]
      have hD : discoveredIds tdFile (name :: rest) name =
          nodeGlobalIds tdFile name ++ discoveredIds tdFile rest name := by
        conv_lhs => unfold discoveredIds
        simp [he]
      rw [hD]
      by_cases hr : name ∈ discovered tdFile rest
      · simp only [hr, if_true, PointCloud.extend_extend]
      · simp only [hr, if_false, discoveredIds_of_not_mem tdFile rest name hr,
          List.append_nil]
    · have hD : discoveredIds tdFile (m :: rest) name = discoveredIds tdFile rest name := by
        conv_lhs => unfold discoveredIds
        have : ¬ (isEmptyRegion tdFile m = false ∧ m = name) := fun h => hm ⟨h.1, h.2.symm⟩
        simp [this]
      have hiff : name ∈ discovered tdFile (m :: rest) ↔ name ∈ discovered tdFile rest := by
        rw [hmem]
        exact ⟨fun h => h.resolve_left hm, Or.inr⟩
      simp only [hm, if_false, hD]
      by_cases hr : name ∈ discovered tdFile rest
      · simp [hr, hiff.mpr hr]
      · have : name ∉ discovered tdFile (m :: rest) := fun h => hr (hiff.mp h)
        simp [hr, this]

/-- The entry of the index at the global id of a discovered node, when the archive's
internal indices are distinct: a region created for the node's submodel, and the node
id minus one. -/
theorem readData_index_written (tdFile : SaveFile) (l : List String) (s : State)
    (hinj : InjectiveIndex tdFile l) (m : String) (hm : m ∈ discovered tdFile l)
    (id : Int) (hid : id ∈ tdFile.getNodeIds m) :
    ∃ r, (forEach (readSubmodel tdFile) l s).state.regions[r]? = some (mkRegion m) ∧
      (forEach (readSubmodel tdFile) l s).state.globalIdToRegionIndex[
        tdFile.getInternalIndex m id]? = some (r, localIdOf id) := by
  induction l generalizing s with
  | nil => simp [discovered] at hm
  | cons m0 rest ih =>
    have hinj' : InjectiveIndex tdFile rest := by
      intro m1 h1 m2 h2 id1 hid1 id2 hid2 heq
      apply hinj m1 _ m2 _ id1 hid1 id2 hid2 heq
      · rw [mem_discovered] at h1 ⊢
        exact ⟨List.mem_cons_of_mem _ h1.1, h1.2⟩
      · rw [mem_discovered] at h2 ⊢
        exact ⟨List.mem_cons_of_mem _ h2.1, h2.2⟩
    rw [readData_cons]
    by_cases hrest : m ∈ discovered tdFile rest
    · exact ih _ hinj' hrest
    · have hm0 : m = m0 := by
        rw [mem_discovered] at hm hrest
        rcases List.mem_cons.mp hm.1 with h | h
        · exact h
        · exact absurd ⟨h, hm.2⟩ hrest
      subst hm0
      have he : isEmptyRegion tdFile m = false := ((mem_discovered _ _ _).mp hm).2
      refine ⟨s.regions.length, ?_, ?_⟩
      · rw [readData_regions, readSubmodel_regions]
        have : discovered tdFile [m] = [m] := by simp [discovered, he]
        rw [this, List.map_singleton, List.append_assoc,
          List.getElem?_append_right (Nat.le_refl _)]
        simp
      · have hw := indexNodes_written tdFile m s.regions.length (tdFile.getNodeIds m)
          s.globalIdToRegionIndex id hid
          (fun id2 h2 heq => (hinj m hm m hm id2 h2 id hid heq).2)
        have hframe := readData_index_frame tdFile (tdFile.getInternalIndex m id) rest
          (readSubmodel tdFile m s).state (by
            intro m' hm' id' hid' heq
            have hm'' : m' ∈ discovered tdFile (m :: rest) := by
              rw [mem_discovered] at hm' ⊢
              exact ⟨List.mem_cons_of_mem _ hm'.1, hm'.2⟩
            have := (hinj m' hm'' m hm id' hid' id hid heq).1
            exact hrest (this ▸ hm'))
        have hlen := readData_index_length_le tdFile rest (readSubmodel tdFile m s).state
        rw [readSubmodel_index] at hframe hlen
        simp only [he, Bool.false_eq_true, if_false] at hframe hlen
        rw [hw.1] at hframe
        have hlt := Nat.lt_of_lt_of_le hw.2 hlen
        unfold entryAt at hframe
        rw [List.getElem?_eq_getElem hlt] at hframe ⊢
        simpa using hframe

/-! ## Claims on discovery -/

theorem isEmptyRegion_eq_false_iff (tdFile : SaveFile) (m : String) :
    isEmptyRegion tdFile m = false ↔ tdFile.getTemperatureData m ≠ [] := by
  unfold isEmptyRegion
  cases h : tdFile.getTemperatureData m <;> simp

theorem readData_solutionData_isSome (tdFile : SaveFile) (name : String) :
    (Map.find (readData tdFile State.empty).state.solutionData name).isSome =
      (Map.find (readData tdFile State.empty).state.pointClouds name).isSome := by
  obtain ⟨_, h2, h3⟩ := balanced_readData tdFile State.empty balanced_empty
  cases hpc : Map.find (readData tdFile State.empty).state.pointClouds name with
  | none => simp [h3 name hpc]
  | some pc =>
    obtain ⟨_, vd, t, hvd, _⟩ := h2 name pc hpc
    simp [hvd]

/-- C10: discovery creates a region, a point cloud and a solution-data entry for a
submodel exactly when the archive has temperature data for it; the regions list is the
archive's list of submodels without the skipped ones, in the same order. -/
theorem discovery_regions_iff_temperature_data (tdFile : SaveFile) :
    (readData tdFile State.empty).state.regions =
      (tdFile.getThermalSubmodels.filter
        (fun m => !(tdFile.getTemperatureData m).isEmpty)).map mkRegion ∧
    (∀ name, (Map.find (readData tdFile State.empty).state.pointClouds name).isSome = true ↔
      (name ∈ tdFile.getThermalSubmodels ∧ tdFile.getTemperatureData name ≠ [])) ∧
    (∀ name, (Map.find (readData tdFile State.empty).state.solutionData name).isSome = true ↔
      (name ∈ tdFile.getThermalSubmodels ∧ tdFile.getTemperatureData name ≠ [])) := by
  have hpc : ∀ name,
      (Map.find (readData tdFile State.empty).state.pointClouds name).isSome = true ↔
      (name ∈ tdFile.getThermalSubmodels ∧ tdFile.getTemperatureData name ≠ []) := by
    intro name
    unfold readData
    rw [readData_pointClouds, ← isEmptyRegion_eq_false_iff, ← mem_discovered]
    by_cases h : name ∈ discovered tdFile tdFile.getThermalSubmodels
    · simp [h]
    · simp [h, State.empty, Map.find_nil]
  refine ⟨?_, hpc, ?_⟩
  · unfold readData
    rw [readData_regions]
    have : (fun m => !(tdFile.getTemperatureData m).isEmpty) =
        fun m => !isEmptyRegion tdFile m := by
      funext m
      unfold isEmptyRegion
      cases tdFile.getTemperatureData m <;> simp
    simp [State.empty, discovered, this]
  · intro name
    rw [readData_solutionData_isSome]
    exact hpc name

theorem readData_error (tdFile : SaveFile) (s : State) : (readData tdFile s).error = none :=
  forEach_no_error _ (fun m s' => readSubmodel_error tdFile m s') _ s

/-- C9 (as the code behaves): after discovery, an index entry inside the storage range
that no node of a discovered submodel produced holds the value-initialised pair
`(0, 0)`, which is also the entry of the node with local id 0 of the first region. -/
theorem unmapped_entries_are_zero_pairs (tdFile : SaveFile) (g : Nat)
    (hrange : g < (readData tdFile State.empty).state.globalIdToRegionIndex.length)
    (hunmapped : ∀ m ∈ discovered tdFile tdFile.getThermalSubmodels,
      ∀ id ∈ tdFile.getNodeIds m, tdFile.getInternalIndex m id ≠ g) :
    (readData tdFile State.empty).state.globalIdToRegionIndex[g]? = some (0, 0) := by
  have h := readData_index_frame tdFile g tdFile.getThermalSubmodels State.empty hunmapped
  unfold readData at hrange ⊢
  unfold entryAt at h
  rw [List.getElem?_eq_getElem hrange] at h ⊢
  simpa [State.empty] using h

/-- C9, witness: in `sparseArchive` the global id `0` is inside the storage range and
belongs to no node, and its entry is `(0, 0)`. -/
theorem unmapped_entries_are_zero_pairs_witness :
    (readData sparseArchive State.empty).state.globalIdToRegionIndex[0]? = some (0, 0) :=
  unmapped_entries_are_zero_pairs sparseArchive 0 (by decide) (by decide)

/-- C9, counterexample: in `sparseArchive` no node has global id `0`, yet the entry stored
for it equals the entry of the real node with global id `1`, and a synchronisation that
looks up global id `0` succeeds and overwrites that node's x coordinate with `7`. -/
theorem unmapped_entry_equals_valid_entry :
    (∀ id ∈ sparseArchive.getNodeIds "B", sparseArchive.getInternalIndex "B" id ≠ 0) ∧
      (readData sparseArchive State.empty).state.globalIdToRegionIndex[0]? =
        (readData sparseArchive State.empty).state.globalIdToRegionIndex[1]? ∧
      (fillTimeStepData sparseArchive 0 (readData sparseArchive State.empty).state).error
        = none ∧
      Map.find (fillTimeStepData sparseArchive 0
          (readData sparseArchive State.empty).state).state.pointClouds "B" =
        some ⟨[1], [⟨7, 0, 0⟩]⟩ := by
  refine ⟨by decide, by decide, by decide, by decide⟩

theorem length_le_discoveredIds (tdFile : SaveFile) (l : List String) (m : String)
    (hm : m ∈ discovered tdFile l) :
    (tdFile.getNodeIds m).length ≤ (discoveredIds tdFile l m).length := by
  induction l with
  | nil => simp [discovered] at hm
  | cons m0 rest ih =>
    unfold discoveredIds
    rw [List.length_append]
    by_cases h0 : isEmptyRegion tdFile m0 = false ∧ m0 = m
    · rw [if_pos h0]
      obtain ⟨_, h0⟩ := h0
      subst h0
      simp only [nodeGlobalIds, List.length_map]
      omega
    · rw [if_neg h0]
      have : m ∈ discovered tdFile rest := by
        rw [mem_discovered] at hm ⊢
        rcases List.mem_cons.mp hm.1 with h | h
        · exact absurd ⟨h ▸ hm.2, h.symm⟩ h0
        · exact ⟨h, hm.2⟩
      have := ih this
      omega

theorem localIdOf_lt (id : Int) (n : Nat) (h1 : 1 ≤ id) (h2 : id ≤ n) (h3 : id < 2 ^ 31) :
    localIdOf id < n := by
  unfold localIdOf toSizeT toLong
  omega

/-- At the least `int` the subtraction wraps around: the stored local id is the
greatest `int`. -/
theorem localIdOf_least_int : localIdOf (-2147483648) = 2147483647 := by decide

theorem localIdOf_zero : localIdOf 0 = 18446744073709551615 := by decide

/-- C2 (as the code behaves): when the archive gives distinct nodes of the discovered
submodels distinct internal indices, then after discovery the global id of every such
node resolves to the pair of a region created for its submodel and of its local id, the
node id minus one computed in 32-bit arithmetic and converted to `std::size_t`; that
local id is below the size of the region when the node id lies between 1 and the number
of node ids of the submodel (and is an `int`, that is, below `2 ^ 31`). -/
theorem index_resolves_discovered_nodes (tdFile : SaveFile)
    (hinj : InjectiveIndex tdFile tdFile.getThermalSubmodels)
    (m : String) (hm : m ∈ tdFile.getThermalSubmodels)
    (hdata : tdFile.getTemperatureData m ≠ [])
    (id : Int) (hid : id ∈ tdFile.getNodeIds m) :
    ∃ r pc,
      (readData tdFile State.empty).state.regions[r]? = some (mkRegion m) ∧
      (readData tdFile State.empty).state.globalIdToRegionIndex[
        tdFile.getInternalIndex m id]? = some (r, localIdOf id) ∧
      Map.find (readData tdFile State.empty).state.pointClouds m = some pc ∧
      (1 ≤ id → id ≤ (tdFile.getNodeIds m).length → id < 2 ^ 31 →
        localIdOf id < pc.size) := by
  have hmd : m ∈ discovered tdFile tdFile.getThermalSubmodels :=
    (mem_discovered _ _ _).mpr ⟨hm, (isEmptyRegion_eq_false_iff _ _).mpr hdata⟩
  obtain ⟨r, hr, hidx⟩ := readData_index_written tdFile tdFile.getThermalSubmodels
    State.empty hinj m hmd id hid
  have hpc : Map.find (readData tdFile State.empty).state.pointClouds m =
      some ((PointCloud.mk [] []).extend
        (discoveredIds tdFile tdFile.getThermalSubmodels m)) := by
    unfold readData
    rw [readData_pointClouds]
    simp only [hmd, if_true]
    rfl
  refine ⟨r, _, hr, hidx, hpc, ?_⟩
  · intro h1 h2 h3
    have hlen := length_le_discoveredIds tdFile tdFile.getThermalSubmodels m hmd
    have := localIdOf_lt id (tdFile.getNodeIds m).length h1 h2 h3
    simp only [PointCloud.size, PointCloud.extend, List.length_append]
    omega

/-- C2, witness: node id 2 of submodel `B` of the scenario archive. -/
theorem index_resolves_discovered_nodes_witness :
    ∃ r pc,
      (readData scenarioArchive State.empty).state.regions[r]? = some (mkRegion "B") ∧
      (readData scenarioArchive State.empty).state.globalIdToRegionIndex[
        scenarioArchive.getInternalIndex "B" 2]? = some (r, localIdOf 2) ∧
      Map.find (readData scenarioArchive State.empty).state.pointClouds "B" = some pc ∧
      ((1 : Int) ≤ 2 → (2 : Int) ≤ (scenarioArchive.getNodeIds "B").length →
        (2 : Int) < 2 ^ 31 → localIdOf 2 < pc.size) :=
  index_resolves_discovered_nodes scenarioArchive (by unfold InjectiveIndex; decide) "B"
    (by decide) (by decide) 2 (by decide)

/-- C2, counterexample: the only node of `gapArchive` has node id 5; its global id 0
resolves to local id 4, which is not below the size 1 of its region. -/
theorem local_id_outside_region :
    (5 : Int) ∈ gapArchive.getNodeIds "B" ∧
      (readData gapArchive State.empty).state.globalIdToRegionIndex[
        gapArchive.getInternalIndex "B" 5]? = some (0, 4) ∧
      Map.find (readData gapArchive State.empty).state.pointClouds "B" =
        some ⟨[0], [Vector.zero]⟩ ∧
      ¬ (4 < (PointCloud.mk [0] [Vector.zero]).size) := by
  refine ⟨by decide, by decide, by decide, by decide⟩

/-! ## Flattening the loops of `fillTimeStepData` -/

theorem forEach_append {α : Type} (body : α → State → Outcome) (l1 l2 : List α) (s : State) :
    forEach body (l1 ++ l2) s =
      if (forEach body l1 s).error.isSome then forEach body l1 s
      else forEach body l2 (forEach body l1 s).state := by
  induction l1 generalizing s with
  | nil => simp [forEach_nil]
  | cons a rest ih =>
    rw [List.cons_append, forEach_cons, forEach_cons]
    by_cases he : (body a s).error.isSome
    · simp [he]
    · simp only [he, if_false]
      exact ih _

theorem forEach_map {α β : Type} (body : β → State → Outcome) (f : α → β) (l : List α)
    (s : State) : forEach body (l.map f) s = forEach (fun a => body (f a)) l s := by
  induction l generalizing s with
  | nil => rfl
  | cons a rest ih =>
    rw [List.map_cons, forEach_cons, forEach_cons, ih]

theorem forEach_flatten {α β : Type} (body : β → State → Outcome) (f : α → List β) (l : List α)
    (s : State) :
    forEach body ((l.map f).flatten) s = forEach (fun a => forEach body (f a)) l s := by
  induction l generalizing s with
  | nil => rfl
  | cons a rest ih =>
    rw [List.map_cons, List.flatten_cons, forEach_append, forEach_cons, ih]

theorem forEach_congr {α : Type} (body body' : α → State → Outcome) (l : List α) (s : State)
    (h : ∀ a s, body a s = body' a s) : forEach body l s = forEach body' l s := by
  have : body = body' := funext (fun a => funext (h a))
  rw [this]

theorem fillPosition_eq (tdFile : SaveFile) (t : Int) (rec : Int) (d : UdfaDescription)
    (s : State) :
    fillPosition tdFile rec d s = forEach (Write.run t) (fieldWrites tdFile rec d) s := by
  unfold fillPosition fieldWrites
  by_cases h : contains d.sindaDesignator "POS_"
  · simp only [h, Bool.not_true, Bool.false_eq_true, if_false, if_true, forEach_map]
    rfl
  · simp only [h, Bool.not_false, if_true, if_false]
    rfl

theorem fillTemperature_eq (tdFile : SaveFile) (t : Int) (m : String) (s : State) :
    fillTemperature tdFile t m s = forEach (Write.run t) (submodelWrites tdFile m) s := by
  unfold fillTemperature submodelWrites
  simp only
  by_cases h : (tdFile.getTemperatureData m).length = 0
  · have : tdFile.getTemperatureData m = [] := List.length_eq_zero.mp h
    simp [this, forEach_nil]
  · simp only [h, if_false, forEach_map]
    rfl

/-- One synchronisation is the sequence of its single writes, coordinates first,
stopped at the first one that throws. -/
theorem fillTimeStepData_eq (tdFile : SaveFile) (t : Int) (s : State) :
    fillTimeStepData tdFile t s =
      match indexer tdFile.getRecordNumbers t with
      | none => ⟨s, some .indexOutOfRange⟩
      | some rec =>
        forEach (Write.run t) (positionWrites tdFile rec ++ temperatureWrites tdFile) s := by
  unfold fillTimeStepData
  cases indexer tdFile.getRecordNumbers t with
  | none => rfl
  | some rec =>
    simp only
    rw [forEach_append]
    have hp : ∀ s, forEach (fillPosition tdFile rec) (tdFile.getUdfasAtRecord rec) s =
        forEach (Write.run t) (positionWrites tdFile rec) s := by
      intro s
      unfold positionWrites
      rw [forEach_flatten]
      exact forEach_congr _ _ _ _ (fun d s => fillPosition_eq tdFile t rec d s)
    have ht : ∀ s, forEach (fillTemperature tdFile t) tdFile.getThermalSubmodels s =
        forEach (Write.run t) (temperatureWrites tdFile) s := by
      intro s
      unfold temperatureWrites
      rw [forEach_flatten]
      exact forEach_congr _ _ _ _ (fun m s => fillTemperature_eq tdFile t m s)
    rw [hp, ht]

/-! ## Writes, their range checks and their assignments -/

theorem Write.run_eq (t : Int) (w : Write) (s : State) :
    Write.run t w s =
      match Write.resolve t w s with
      | .ok a => ⟨a.apply s, none⟩
      | .error e => ⟨s, some e⟩ := by
  cases w with
  | coord d g v =>
    simp only [Write.run, Write.resolve, writeCoord]
    split
    · rfl
    · split
      · rfl
      · split
        · rfl
        · split
          · rfl
          · split <;> rfl
  | temperature name i series =>
    simp only [Write.run, Write.resolve, writeTemperature]
    split
    · rfl
    · split
      · rfl
      · split
        · rfl
        · split <;> rfl

theorem Write.run_of_ok (t : Int) (w : Write) (s : State) (a : Action)
    (h : Write.resolve t w s = .ok a) : Write.run t w s = ⟨a.apply s, none⟩ := by
  rw [Write.run_eq, h]

theorem Write.run_of_error (t : Int) (w : Write) (s : State) (e : Error)
    (h : Write.resolve t w s = .error e) : Write.run t w s = ⟨s, some e⟩ := by
  rw [Write.run_eq, h]

/-- An assignment changes no value the range checks look at. -/
theorem Write.resolve_apply (t : Int) (w : Write) (a : Action) (s : State) :
    Write.resolve t w (a.apply s) = Write.resolve t w s := by
  cases w with
  | coord d g v =>
    cases a with
    | coord name l dim x =>
      simp only [Write.resolve, Action.apply, storeCoord, Map.find_modify]
      split
      · rfl
      · split
        · rfl
        · split
          · rfl
          · rename_i region _
            by_cases hn : region.getName = name
            · simp only [hn, if_true]
              cases hf : Map.find s.pointClouds name with
              | none => rfl
              | some pc => simp [setCoord_length]
            · simp only [hn, if_false]
    | temperature name i x => rfl
  | temperature name' i' series =>
    cases a with
    | coord name l dim x => rfl
    | temperature name i x =>
      simp only [Write.resolve, Action.apply, storeTemperature, Map.find_modify]
      split
      · rfl
      · by_cases hn : name' = name
        · simp only [hn, if_true]
          cases hf : Map.find s.solutionData name with
          | none => rfl
          | some vd =>
            simp only [Option.map_some', Map.find_modify, if_true]
            cases hT : Map.find vd "Temperature" with
            | none => rfl
            | some temps => simp
        · simp only [hn, if_false]

theorem Write.resolve_applyAll (t : Int) (w : Write) (as : List Action) (s : State) :
    Write.resolve t w (applyAll as s) = Write.resolve t w s := by
  induction as generalizing s with
  | nil => rfl
  | cons a rest ih =>
    unfold applyAll
    rw [List.foldl_cons]
    exact (ih (a.apply s)).trans (Write.resolve_apply t w a s)

theorem actionsOf_apply (t : Int) (ws : List Write) (a : Action) (s : State) :
    actionsOf t ws (a.apply s) = actionsOf t ws s := by
  unfold actionsOf
  congr 1
  funext w
  rw [Write.resolve_apply]

theorem actionsOf_applyAll (t : Int) (ws : List Write) (as : List Action) (s : State) :
    actionsOf t ws (applyAll as s) = actionsOf t ws s := by
  unfold actionsOf
  congr 1
  funext w
  rw [Write.resolve_applyAll]

/-- A sequence of writes runs without an exception exactly when the range checks of
all of them pass in the initial state. -/
theorem forEach_run_error_none_iff (t : Int) (ws : List Write) (s : State) :
    (forEach (Write.run t) ws s).error = none ↔
      ∀ w ∈ ws, ∃ a, Write.resolve t w s = .ok a := by
  induction ws generalizing s with
  | nil => simp [forEach_nil]
  | cons w rest ih =>
    rw [forEach_cons]
    cases hr : Write.resolve t w s with
    | error e =>
      rw [Write.run_of_error t w s e hr]
      simp only [Option.isSome_some, if_true, List.mem_cons, forall_eq_or_imp]
      constructor
      · intro h
        cases h
      · rintro ⟨⟨a, ha⟩, _⟩
        rw [hr] at ha
        cases ha
    | ok a =>
      rw [Write.run_of_ok t w s a hr]
      simp only [Option.isSome_none, Bool.false_eq_true, if_false, List.mem_cons,
        forall_eq_or_imp, ih]
      constructor
      · intro h
        refine ⟨⟨a, hr⟩, ?_⟩
        intro w' hw'
        rw [← Write.resolve_apply t w' a s]
        exact h w' hw'
      · rintro ⟨_, h⟩ w' hw'
        rw [Write.resolve_apply t w' a s]
        exact h w' hw'

/-- The globals after a sequence of writes that ran without an exception: the
assignments of the writes, applied in order. -/
theorem forEach_run_state (t : Int) (ws : List Write) (s : State)
    (h : (forEach (Write.run t) ws s).error = none) :
    (forEach (Write.run t) ws s).state = applyAll (actionsOf t ws s) s := by
  induction ws generalizing s with
  | nil => rfl
  | cons w rest ih =>
    have hall := (forEach_run_error_none_iff t (w :: rest) s).mp h
    obtain ⟨a, ha⟩ := hall w (List.mem_cons_self _ _)
    rw [forEach_cons, Write.run_of_ok t w s a ha] at h ⊢
    simp only [Option.isSome_none, Bool.false_eq_true, if_false] at h ⊢
    rw [ih _ h, actionsOf_apply]
    unfold actionsOf applyAll
    rw [List.filterMap_cons]
    simp [ha, Except.toOption]

/-! ## Assignments commute or override each other -/

theorem Map.modify_comm {β : Type} (m : Map β) (k1 k2 : String) (f h : β → β)
    (hk : k1 ≠ k2) :
    Map.modify (Map.modify m k1 f) k2 h = Map.modify (Map.modify m k2 h) k1 f := by
  unfold Map.modify
  rw [List.map_map, List.map_map]
  apply List.map_congr_left
  intro e _
  by_cases h1 : e.1 = k1
  · have h2 : ¬ e.1 = k2 := fun h' => hk (h1.symm.trans h')
    simp [h1, h2, hk]
  · by_cases h2 : e.1 = k2
    · simp [h1, h2, Ne.symm hk]
    · simp [h1, h2]

theorem Vector.set_set (c : Vector) (d : Fin 3) (v1 v2 : Double) :
    (c.set d v1).set d v2 = c.set d v2 := by
  fin_cases d <;> rfl

theorem Vector.set_comm (c : Vector) (d1 d2 : Fin 3) (v1 v2 : Double) (h : d1 ≠ d2) :
    (c.set d1 v1).set d2 v2 = (c.set d2 v2).set d1 v1 := by
  fin_cases d1 <;> fin_cases d2 <;> first | rfl | exact absurd rfl h

theorem getElem?_setCoord (coords : List Vector) (l j : Nat) (d : Fin 3) (v : Double) :
    (setCoord coords l d v)[j]? =
      if j = l then (coords[j]?).map (fun c => c.set d v) else coords[j]? := by
  unfold setCoord
  cases hl : coords[l]? with
  | none =>
    simp only
    by_cases hj : j = l
    · simp [hj, hl]
    · simp [hj]
  | some c =>
    simp only
    rw [List.getElem?_set]
    by_cases hj : j = l
    · subst hj
      have hlt : j < coords.length := by
        by_contra hge
        rw [List.getElem?_eq_none (by omega)] at hl
        cases hl
      simp [hl, hlt]
    · have : ¬ l = j := fun h => hj h.symm
      simp [hj, this]

theorem setCoord_setCoord (coords : List Vector) (l : Nat) (d : Fin 3) (v1 v2 : Double) :
    setCoord (setCoord coords l d v1) l d v2 = setCoord coords l d v2 := by
  apply List.ext_getElem?
  intro j
  simp only [getElem?_setCoord]
  by_cases hj : j = l
  · simp only [hj, if_true, Option.map_map]
    congr 1
    funext c
    exact Vector.set_set c d v1 v2
  · simp [hj]

theorem setCoord_comm (coords : List Vector) (l1 l2 : Nat) (d1 d2 : Fin 3) (v1 v2 : Double)
    (h : l1 ≠ l2 ∨ d1 ≠ d2) :
    setCoord (setCoord coords l1 d1 v1) l2 d2 v2 =
      setCoord (setCoord coords l2 d2 v2) l1 d1 v1 := by
  apply List.ext_getElem?
  intro j
  simp only [getElem?_setCoord]
  by_cases hl : l1 = l2
  · subst hl
    have hd : d1 ≠ d2 := by
      rcases h with h | h
      · exact absurd rfl h
      · exact h
    by_cases hj : j = l1
    · simp only [hj, if_true, Option.map_map]
      congr 1
      funext c
      exact Vector.set_comm c d1 d2 v1 v2 hd
    · simp [hj]
  · by_cases hj1 : j = l1
    · have hj2 : ¬ j = l2 := fun h' => hl (hj1.symm.trans h')
      simp [hj1, hj2, hl]
    · simp [hj1]

/-- Two assignments either commute, or the second makes the first one invisible. -/
theorem Action.commute_or_override (a b : Action) :
    (∀ s, b.apply (a.apply s) = a.apply (b.apply s)) ∨
      (∀ s, b.apply (a.apply s) = b.apply s) := by
  cases a with
  | coord n1 l1 d1 v1 =>
    cases b with
    | temperature n2 i2 v2 => exact Or.inl (fun s => rfl)
    | coord n2 l2 d2 v2 =>
      by_cases hn : n1 = n2
      · subst hn
        by_cases hsame : l1 = l2 ∧ d1 = d2
        · obtain ⟨hl, hd⟩ := hsame
          subst hl
          subst hd
          right
          intro s
          simp only [Action.apply, storeCoord, Map.modify_modify, setCoord_setCoord]
        · left
          intro s
          have hne : l1 ≠ l2 ∨ d1 ≠ d2 := by
            by_cases hl : l1 = l2
            · exact Or.inr (fun hd => hsame ⟨hl, hd⟩)
            · exact Or.inl hl
          simp only [Action.apply, storeCoord, Map.modify_modify]
          rw [Map.modify_congr _ _ _ _ (fun p => by rw [setCoord_comm _ _ _ _ _ _ _ hne])]
      · left
        intro s
        simp only [Action.apply, storeCoord]
        rw [Map.modify_comm _ _ _ _ _ hn]
  | temperature n1 i1 v1 =>
    cases b with
    | coord n2 l2 d2 v2 => exact Or.inl (fun s => rfl)
    | temperature n2 i2 v2 =>
      by_cases hn : n1 = n2
      · subst hn
        by_cases hi : i1 = i2
        · subst hi
          right
          intro s
          simp only [Action.apply, storeTemperature, Map.modify_modify, List.set_set]
        · left
          intro s
          simp only [Action.apply, storeTemperature, Map.modify_modify]
          rw [Map.modify_congr _ _ _ _ (fun vd => Map.modify_congr _ _ _ _
            (fun ts => List.set_comm v1 v2 ts hi))]
      · left
        intro s
        simp only [Action.apply, storeTemperature]
        rw [Map.modify_comm _ _ _ _ _ hn]

theorem Action.apply_apply (a : Action) (s : State) : a.apply (a.apply s) = a.apply s := by
  cases a with
  | coord n l d v =>
    simp only [Action.apply, storeCoord, Map.modify_modify, setCoord_setCoord]
  | temperature n i v =>
    simp only [Action.apply, storeTemperature, Map.modify_modify, List.set_set]

theorem applyAll_cons (a : Action) (rest : List Action) (s : State) :
    applyAll (a :: rest) s = applyAll rest (a.apply s) := rfl

/-- An assignment put in front of a sequence either disappears behind it or can be
moved to its end. -/
theorem applyAll_absorb_or_commute (rest : List Action) (a : Action) :
    (∀ s, applyAll rest (a.apply s) = applyAll rest s) ∨
      (∀ s, applyAll rest (a.apply s) = a.apply (applyAll rest s)) := by
  induction rest with
  | nil => exact Or.inr (fun s => rfl)
  | cons b rest ih =>
    rcases Action.commute_or_override a b with hc | ho
    · rcases ih with h1 | h2
      · left
        intro s
        rw [applyAll_cons, applyAll_cons, hc, h1]
      · right
        intro s
        rw [applyAll_cons, applyAll_cons, hc, h2]
    · left
      intro s
      rw [applyAll_cons, applyAll_cons, ho]

/-- Applying a sequence of assignments a second time changes nothing. -/
theorem applyAll_idempotent (as : List Action) (s : State) :
    applyAll as (applyAll as s) = applyAll as s := by
  induction as generalizing s with
  | nil => rfl
  | cons a rest ih =>
    rw [applyAll_cons, applyAll_cons]
    rcases applyAll_absorb_or_commute rest a with h1 | h2
    · rw [h1, ih]
    · rw [h2, ih, ← h2, Action.apply_apply]

/-! ## What an assignment changes -/

theorem slotOf_apply (a : Action) (s : State) (g : Nat) :
    slotOf (a.apply s) g = slotOf s g := by
  cases a <;> rfl

theorem slotOf_applyAll (as : List Action) (s : State) (g : Nat) :
    slotOf (applyAll as s) g = slotOf s g := by
  induction as generalizing s with
  | nil => rfl
  | cons a rest ih => rw [applyAll_cons, ih, slotOf_apply]

theorem coordOfSlot_storeCoord (s : State) (name name' : String) (l l' : Nat) (d d' : Fin 3)
    (v : Double) :
    coordOfSlot (storeCoord s name l d v) (name', l') d' =
      if name' = name ∧ l' = l ∧ d' = d then (coordOfSlot s (name', l') d').map (fun _ => v)
      else coordOfSlot s (name', l') d' := by
  unfold coordOfSlot storeCoord
  simp only [Map.find_modify]
  by_cases hn : name' = name
  · subst hn
    simp only [if_true, true_and]
    cases hf : Map.find s.pointClouds name' with
    | none => simp
    | some pc =>
      simp only [Option.map_some', getElem?_setCoord]
      by_cases hl : l' = l
      · subst hl
        simp only [if_true, true_and]
        cases hc : pc.coords[l']? with
        | none => simp
        | some c =>
          simp only [Option.map_some']
          by_cases hd : d' = d
          · subst hd
            simp only [if_true, Option.map_some', Option.some.injEq]
            fin_cases d' <;> rfl
          · simp only [hd, if_false, Option.some.injEq]
            fin_cases d' <;> fin_cases d <;> first | rfl | exact absurd rfl hd
      · simp [hl]
  · simp [hn]

theorem temperatureAt_storeTemperature (s : State) (name name' : String) (i i' : Nat)
    (v : Double) :
    temperatureAt (storeTemperature s name i v) name' i' =
      if name' = name ∧ i' = i then (temperatureAt s name' i').map (fun _ => v)
      else temperatureAt s name' i' := by
  unfold temperatureAt storeTemperature
  simp only [Map.find_modify]
  by_cases hn : name' = name
  · subst hn
    simp only [if_true, true_and]
    cases hf : Map.find s.solutionData name' with
    | none => simp
    | some vd =>
      simp only [Option.map_some', Map.find_modify, if_true]
      cases hT : Map.find vd "Temperature" with
      | none => simp
      | some temps =>
        simp only [Option.map_some', List.getElem?_set]
        by_cases hi : i' = i
        · subst hi
          by_cases hlt : i' < temps.length
          · simp [hlt, List.getElem?_eq_getElem hlt]
          · simp [hlt, List.getElem?_eq_none (Nat.le_of_not_lt hlt)]
        · have : ¬ i = i' := fun h => hi h.symm
          simp [hi, this]
  · simp [hn]

theorem coordOfSlot_apply_of_not_writes (a : Action) (s : State) (slot : String × Nat)
    (dim : Fin 3) (h : ¬ a.writesCoord slot dim) :
    coordOfSlot (a.apply s) slot dim = coordOfSlot s slot dim := by
  cases a with
  | temperature n i v => rfl
  | coord name l d v =>
    obtain ⟨n', l'⟩ := slot
    simp only [Action.apply, coordOfSlot_storeCoord]
    have : ¬ (n' = name ∧ l' = l ∧ dim = d) := by
      rintro ⟨h1, h2, h3⟩
      exact h ⟨h1.symm, h2.symm, h3.symm⟩
    simp [this]

/-- Assignments that do not write a coordinate component leave it as it is. -/
theorem coordOfSlot_applyAll_frame (as : List Action) (s : State) (slot : String × Nat)
    (dim : Fin 3) (h : ∀ a ∈ as, ¬ a.writesCoord slot dim) :
    coordOfSlot (applyAll as s) slot dim = coordOfSlot s slot dim := by
  induction as generalizing s with
  | nil => rfl
  | cons a rest ih =>
    rw [applyAll_cons, ih _ (fun b hb => h b (List.mem_cons_of_mem _ hb)),
      coordOfSlot_apply_of_not_writes a s slot dim (h a (List.mem_cons_self _ _))]

theorem temperatureAt_apply_of_not_writes (a : Action) (s : State) (name : String) (i : Nat)
    (h : ¬ a.writesTemperature name i) :
    temperatureAt (a.apply s) name i = temperatureAt s name i := by
  cases a with
  | coord n l d v => rfl
  | temperature n j v =>
    simp only [Action.apply, temperatureAt_storeTemperature]
    have : ¬ (name = n ∧ i = j) := by
      rintro ⟨h1, h2⟩
      exact h ⟨h1.symm, h2.symm⟩
    simp [this]

/-- Assignments that do not write a temperature leave it as it is. -/
theorem temperatureAt_applyAll_frame (as : List Action) (s : State) (name : String) (i : Nat)
    (h : ∀ a ∈ as, ¬ a.writesTemperature name i) :
    temperatureAt (applyAll as s) name i = temperatureAt s name i := by
  induction as generalizing s with
  | nil => rfl
  | cons a rest ih =>
    rw [applyAll_cons, ih _ (fun b hb => h b (List.mem_cons_of_mem _ hb)),
      temperatureAt_apply_of_not_writes a s name i (h a (List.mem_cons_self _ _))]

theorem temperatureAt_isSome_apply (a : Action) (s : State) (name : String) (i : Nat) :
    (temperatureAt (a.apply s) name i).isSome = (temperatureAt s name i).isSome := by
  cases a with
  | coord n l d v => rfl
  | temperature n j v =>
    simp only [Action.apply, temperatureAt_storeTemperature]
    split <;> simp

/-- When every assignment of a sequence that writes a given temperature writes the value
`v`, and one of them does, the temperature is `v` afterwards. -/
theorem temperatureAt_applyAll (as : List Action) (s : State) (name : String) (i : Nat)
    (v : Double) (hmem : Action.temperature name i v ∈ as)
    (hsame : ∀ v', Action.temperature name i v' ∈ as → v' = v)
    (hsome : (temperatureAt s name i).isSome = true) :
    temperatureAt (applyAll as s) name i = some v := by
  induction as generalizing s with
  | nil => simp at hmem
  | cons a rest ih =>
    rw [applyAll_cons]
    by_cases hr : Action.temperature name i v ∈ rest
    · exact ih _ hr (fun v' hv' => hsame v' (List.mem_cons_of_mem _ hv'))
        (by rw [temperatureAt_isSome_apply]; exact hsome)
    · have ha : a = Action.temperature name i v := by
        rcases List.mem_cons.mp hmem with h | h
        · exact h.symm
        · exact absurd h hr
      subst ha
      rw [temperatureAt_applyAll_frame]
      · simp only [Action.apply, temperatureAt_storeTemperature, and_self, if_true]
        obtain ⟨x, hx⟩ := Option.isSome_iff_exists.mp hsome
        simp [hx]
      · intro b hb hw
        cases b with
        | coord n l d x => exact hw
        | temperature n j x =>
          obtain ⟨h1, h2⟩ := hw
          subst h1
          subst h2
          have := hsame x (List.mem_cons_of_mem _ hb)
          subst this
          exact hr hb

/-! ## Claims on the temperature phase and on idempotence -/

theorem mem_actionsOf (t : Int) (ws : List Write) (s : State) (a : Action) :
    a ∈ actionsOf t ws s ↔ ∃ w ∈ ws, Write.resolve t w s = .ok a := by
  unfold actionsOf
  rw [List.mem_filterMap]
  constructor
  · rintro ⟨w, hw, h⟩
    refine ⟨w, hw, ?_⟩
    cases hr : Write.resolve t w s with
    | error e => rw [hr] at h; cases h
    | ok b =>
      rw [hr] at h
      simp only [Except.toOption, Option.some.injEq] at h
      rw [h]
  · rintro ⟨w, hw, h⟩
    exact ⟨w, hw, by rw [h]; rfl⟩

theorem resolve_temperature_ok (t : Int) (name : String) (i : Nat) (series : List Double)
    (s : State) (a : Action)
    (h : Write.resolve t (.temperature name i series) s = .ok a) :
    ∃ v, a = .temperature name i v ∧ indexer series t = some v ∧
      (temperatureAt s name i).isSome = true := by
  simp only [Write.resolve] at h
  split at h
  · cases h
  · rename_i v hv
    split at h
    · cases h
    · rename_i vd hvd
      split at h
      · cases h
      · rename_i temps hT
        split at h
        · rename_i hlt
          refine ⟨v, ?_, hv, ?_⟩
          · cases h
            rfl
          · simp [temperatureAt, hvd, hT, List.getElem?_eq_getElem hlt]
        · cases h

theorem resolve_coord_ok (t : Int) (d : String) (g : Nat) (v : Double)
    (s : State) (a : Action)
    (h : Write.resolve t (.coord d g v) s = .ok a) :
    ∃ name l dim, a = .coord name l dim v ∧ slotOf s g = some (name, l) ∧
      getDim d = .ok dim ∧ (coordOfSlot s (name, l) dim).isSome = true := by
  simp only [Write.resolve] at h
  split at h
  · cases h
  · rename_i r l hidx
    split at h
    · cases h
    · rename_i dim hdim
      split at h
      · cases h
      · rename_i region hreg
        split at h
        · cases h
        · rename_i pc hpc
          split at h
          · rename_i hlt
            refine ⟨region.getName, l, dim, ?_, ?_, hdim, ?_⟩
            · cases h
              rfl
            · simp [slotOf, hidx, hreg]
            · simp [coordOfSlot, hpc, List.getElem?_eq_getElem hlt]
          · cases h

theorem mem_temperatureWrites (tdFile : SaveFile) (w : Write) :
    w ∈ temperatureWrites tdFile ↔
      ∃ m ∈ tdFile.getThermalSubmodels, ∃ i series,
        (tdFile.getTemperatureData m)[i]? = some series ∧ w = .temperature m i series := by
  unfold temperatureWrites submodelWrites
  simp only [List.mem_flatten, List.mem_map]
  constructor
  · rintro ⟨l, ⟨m, hm, rfl⟩, hw⟩
    rw [List.mem_map] at hw
    obtain ⟨e, he, rfl⟩ := hw
    exact ⟨m, hm, e.1, e.2, List.mem_enum_iff_getElem?.mp he, rfl⟩
  · rintro ⟨m, hm, i, series, hs, rfl⟩
    refine ⟨_, ⟨m, hm, rfl⟩, ?_⟩
    rw [List.mem_map]
    exact ⟨(i, series), List.mem_enum_iff_getElem?.mpr hs, rfl⟩

theorem mem_positionWrites_is_coord (tdFile : SaveFile) (rec : Int) (w : Write)
    (h : w ∈ positionWrites tdFile rec) : ∃ d g v, w = .coord d g v := by
  unfold positionWrites fieldWrites at h
  simp only [List.mem_flatten, List.mem_map] at h
  obtain ⟨l, ⟨d, _, rfl⟩, hw⟩ := h
  split at hw
  · rw [List.mem_map] at hw
    obtain ⟨e, _, rfl⟩ := hw
    exact ⟨_, _, _, rfl⟩
  · cases hw

/-- A successful synchronisation, read off the write sequence. -/
theorem fillTimeStepData_ok (tdFile : SaveFile) (t : Int) (s : State)
    (hok : (fillTimeStepData tdFile t s).error = none) :
    ∃ rec, indexer tdFile.getRecordNumbers t = some rec ∧
      (∀ w ∈ positionWrites tdFile rec ++ temperatureWrites tdFile,
        ∃ a, Write.resolve t w s = .ok a) ∧
      (fillTimeStepData tdFile t s).state =
        applyAll (actionsOf t (positionWrites tdFile rec ++ temperatureWrites tdFile) s) s := by
  rw [fillTimeStepData_eq] at hok ⊢
  cases hrec : indexer tdFile.getRecordNumbers t with
  | none =>
    rw [hrec] at hok
    cases hok
  | some rec =>
    rw [hrec] at hok
    simp only at hok ⊢
    exact ⟨rec, rfl, (forEach_run_error_none_iff t _ s).mp hok, forEach_run_state t _ s hok⟩

/-- C4 (as the code behaves): after a successful synchronisation of time step `t`, for
every submodel of the archive and every position `i`: when the archive returns a
temperature series for the submodel at position `i`, the stored `Temperature` value of
that region at position `i` is the value of the series at index `t`; when it returns
none there (the region has more positions than the archive has series), the stored value
at position `i` is the one from before the call. -/
theorem temperature_copied_where_series_exists (tdFile : SaveFile) (t : Int) (s : State)
    (hok : (fillTimeStepData tdFile t s).error = none)
    (m : String) (hm : m ∈ tdFile.getThermalSubmodels) (i : Nat) :
    (∀ series, (tdFile.getTemperatureData m)[i]? = some series →
      ∃ v, indexer series t = some v ∧
        temperatureAt (fillTimeStepData tdFile t s).state m i = some v) ∧
    ((tdFile.getTemperatureData m)[i]? = none →
      temperatureAt (fillTimeStepData tdFile t s).state m i = temperatureAt s m i) := by
  obtain ⟨rec, _, hall, hstate⟩ := fillTimeStepData_ok tdFile t s hok
  constructor
  · intro series hseries
    have hw : Write.temperature m i series ∈
        positionWrites tdFile rec ++ temperatureWrites tdFile :=
      List.mem_append_right _ ((mem_temperatureWrites tdFile _).mpr
        ⟨m, hm, i, series, hseries, rfl⟩)
    obtain ⟨a, ha⟩ := hall _ hw
    obtain ⟨v, rfl, hv, hsome⟩ := resolve_temperature_ok t m i series s a ha
    refine ⟨v, hv, ?_⟩
    rw [hstate]
    apply temperatureAt_applyAll _ _ _ _ _ ((mem_actionsOf _ _ _ _).mpr ⟨_, hw, ha⟩) _ hsome
    intro v' hv'
    obtain ⟨w', hw', hr'⟩ := (mem_actionsOf _ _ _ _).mp hv'
    rcases List.mem_append.mp hw' with hp | ht
    · obtain ⟨d, g, x, rfl⟩ := mem_positionWrites_is_coord tdFile rec w' hp
      obtain ⟨_, _, _, hx, _⟩ := resolve_coord_ok t d g x s _ hr'
      cases hx
    · obtain ⟨m', _, i', series', hs', rfl⟩ := (mem_temperatureWrites tdFile w').mp ht
      obtain ⟨x, hx, hxv, _⟩ := resolve_temperature_ok t m' i' series' s _ hr'
      cases hx
      rw [hseries] at hs'
      cases hs'
      rw [hv] at hxv
      cases hxv
      rfl
  · intro hnone
    rw [hstate]
    apply temperatureAt_applyAll_frame
    intro a ha hwrites
    obtain ⟨w, hw, hr⟩ := (mem_actionsOf _ _ _ _).mp ha
    rcases List.mem_append.mp hw with hp | ht
    · obtain ⟨d, g, x, rfl⟩ := mem_positionWrites_is_coord tdFile rec w hp
      obtain ⟨_, _, _, rfl, _⟩ := resolve_coord_ok t d g x s _ hr
      exact hwrites
    · obtain ⟨m', _, i', series', hs', rfl⟩ := (mem_temperatureWrites tdFile w).mp ht
      obtain ⟨x, rfl, _, _⟩ := resolve_temperature_ok t m' i' series' s _ hr
      obtain ⟨h1, h2⟩ := hwrites
      rw [h1, h2, hnone] at hs'
      cases hs'

/-- C4, witness: region `Q` of size 3 of the archive with regions of sizes 2, 3 and 1:
after synchronising time step 1 its temperature at position 2 is the value 51 of the third
series at index 1; and region `B` of `shortSeriesArchive`, with two nodes and one series:
position 1 keeps its value. -/
theorem temperature_copied_where_series_exists_witness :
    (∃ v, indexer [50, 51] 1 = some v ∧
      temperatureAt (fillTimeStepData threeRegionArchive 1
        (readData threeRegionArchive State.empty).state).state "Q" 2 = some v) ∧
    temperatureAt (fillTimeStepData shortSeriesArchive 0
        (readData shortSeriesArchive State.empty).state).state "B" 1 =
      temperatureAt (readData shortSeriesArchive State.empty).state "B" 1 :=
  ⟨(temperature_copied_where_series_exists threeRegionArchive 1
      (readData threeRegionArchive State.empty).state (by decide) "Q" (by decide) 2).1
      [50, 51] (by decide),
    (temperature_copied_where_series_exists shortSeriesArchive 0
      (readData shortSeriesArchive State.empty).state (by decide) "B" (by decide) 1).2
      (by decide)⟩

/-- C4, counterexample: the region `B` of `shortSeriesArchive` has size 2, the archive
returns one temperature series for it, and the synchronisation of time step 0 succeeds;
position 1 is below the size of the region, the archive has no series for it, and the
stored temperature there is still the default 300 while position 0 holds 310. -/
theorem temperature_position_without_series :
    (fillTimeStepData shortSeriesArchive 0
        (readData shortSeriesArchive State.empty).state).error = none ∧
      (Map.find (fillTimeStepData shortSeriesArchive 0
        (readData shortSeriesArchive State.empty).state).state.pointClouds "B").map
          PointCloud.size = some 2 ∧
      (shortSeriesArchive.getTemperatureData "B")[1]? = none ∧
      temperatureAt (fillTimeStepData shortSeriesArchive 0
        (readData shortSeriesArchive State.empty).state).state "B" 0 = some 310 ∧
      temperatureAt (fillTimeStepData shortSeriesArchive 0
        (readData shortSeriesArchive State.empty).state).state "B" 1 = some 300 := by
  refine ⟨by decide, by decide, by decide, by decide, by decide⟩

/-- C5: a synchronisation that succeeds, run a second time for the same time step,
succeeds again and leaves the globals, stored coordinates and temperatures included,
exactly as the first run left them. -/
theorem fillTimeStepData_idempotent (tdFile : SaveFile) (t : Int) (s : State)
    (hok : (fillTimeStepData tdFile t s).error = none) :
    (fillTimeStepData tdFile t (fillTimeStepData tdFile t s).state).error = none ∧
      (fillTimeStepData tdFile t (fillTimeStepData tdFile t s).state).state =
        (fillTimeStepData tdFile t s).state := by
  obtain ⟨rec, hrec, hall, hstate⟩ := fillTimeStepData_ok tdFile t s hok
  have hok2 : (fillTimeStepData tdFile t (fillTimeStepData tdFile t s).state).error = none := by
    rw [fillTimeStepData_eq tdFile t (fillTimeStepData tdFile t s).state, hrec]
    simp only
    rw [forEach_run_error_none_iff]
    intro w hw
    rw [hstate, Write.resolve_applyAll]
    exact hall w hw
  refine ⟨hok2, ?_⟩
  obtain ⟨rec2, hrec2, _, hstate2⟩ := fillTimeStepData_ok tdFile t _ hok2
  rw [hrec] at hrec2
  cases hrec2
  rw [hstate2, hstate, actionsOf_applyAll, applyAll_idempotent]

/-- C5, witness: time step 0 of the scenario archive, synchronised after discovery. -/
theorem fillTimeStepData_idempotent_witness :
    (fillTimeStepData scenarioArchive 0 (fillTimeStepData scenarioArchive 0
        (readData scenarioArchive State.empty).state).state).error = none ∧
      (fillTimeStepData scenarioArchive 0 (fillTimeStepData scenarioArchive 0
        (readData scenarioArchive State.empty).state).state).state =
        (fillTimeStepData scenarioArchive 0 (readData scenarioArchive State.empty).state).state :=
  fillTimeStepData_idempotent scenarioArchive 0 (readData scenarioArchive State.empty).state
    (by decide)

/-! ## Claims on the position phase -/

theorem applyAll_append (as bs : List Action) (s : State) :
    applyAll (as ++ bs) s = applyAll bs (applyAll as s) := by
  unfold applyAll
  rw [List.foldl_append]

theorem actionsOf_append (t : Int) (l1 l2 : List Write) (s : State) :
    actionsOf t (l1 ++ l2) s = actionsOf t l1 s ++ actionsOf t l2 s := by
  unfold actionsOf
  rw [List.filterMap_append]

theorem actionsOf_cons_ok (t : Int) (w : Write) (rest : List Write) (s : State) (a : Action)
    (h : Write.resolve t w s = .ok a) :
    actionsOf t (w :: rest) s = a :: actionsOf t rest s := by
  unfold actionsOf
  rw [List.filterMap_cons]
  simp [h, Except.toOption]

/-- C3 (as the code behaves): after a successful synchronisation, a value `v` that a
position field returns for a global id `g` is the stored coordinate of the node `g`
resolves to, on the axis of the field, provided no later write of the position loop
(a later global id of the same field, or a later position field) resolves to the same
coordinate slot on the same axis. -/
theorem position_value_stored_unless_overwritten (tdFile : SaveFile) (t : Int) (s : State)
    (rec : Int) (hrec : indexer tdFile.getRecordNumbers t = some rec)
    (hok : (fillTimeStepData tdFile t s).error = none)
    (before after : List Write) (d : String) (g : Nat) (v : Double)
    (hsplit : positionWrites tdFile rec = before ++ Write.coord d g v :: after)
    (hlast : ∀ d' g' v', Write.coord d' g' v' ∈ after →
      slotOf s g' = slotOf s g → getDim d' ≠ getDim d) :
    ∃ dim, getDim d = .ok dim ∧
      coordAt (fillTimeStepData tdFile t s).state g dim = some v := by
  obtain ⟨rec', hrec', hall, hstate⟩ := fillTimeStepData_ok tdFile t s hok
  rw [hrec] at hrec'
  cases hrec'
  have hw0 : Write.coord d g v ∈ positionWrites tdFile rec ++ temperatureWrites tdFile := by
    rw [hsplit]
    simp
  obtain ⟨a0, ha0⟩ := hall _ hw0
  obtain ⟨name, l, dim, rfl, hslot, hdim, _⟩ := resolve_coord_ok t d g v s _ ha0
  refine ⟨dim, hdim, ?_⟩
  have hacts : actionsOf t (positionWrites tdFile rec ++ temperatureWrites tdFile) s =
      actionsOf t before s ++ Action.coord name l dim v ::
        actionsOf t (after ++ temperatureWrites tdFile) s := by
    rw [hsplit, List.append_assoc, List.cons_append, actionsOf_append,
      actionsOf_cons_ok t _ _ s _ ha0]
  rw [hstate, hacts, applyAll_append, applyAll_cons]
  unfold coordAt
  rw [slotOf_applyAll, slotOf_apply, slotOf_applyAll, hslot]
  simp only
  rw [coordOfSlot_applyAll_frame]
  · have hr1 : Write.resolve t (Write.coord d g v) (applyAll (actionsOf t before s) s) =
        .ok (Action.coord name l dim v) := by
      rw [Write.resolve_applyAll]
      exact ha0
    obtain ⟨name1, l1, dim1, h1, _, _, hsome⟩ := resolve_coord_ok t d g v _ _ hr1
    cases h1
    obtain ⟨x, hx⟩ := Option.isSome_iff_exists.mp hsome
    simp [Action.apply, coordOfSlot_storeCoord, hx]
  · intro a ha hwrites
    obtain ⟨w, hw, hr⟩ := (mem_actionsOf _ _ _ _).mp ha
    rcases List.mem_append.mp hw with hp | ht
    · have hpw : w ∈ positionWrites tdFile rec := by
        rw [hsplit]
        exact List.mem_append_right _ (List.mem_cons_of_mem _ hp)
      obtain ⟨d', g', v', rfl⟩ := mem_positionWrites_is_coord tdFile rec w hpw
      obtain ⟨name', l', dim', rfl, hslot', hdim', _⟩ := resolve_coord_ok t d' g' v' s _ hr
      obtain ⟨h1, h2, h3⟩ := hwrites
      simp only at h1 h2
      apply hlast d' g' v' hp
      · rw [hslot', hslot, h1, h2]
      · rw [hdim', hdim, h3]
    · obtain ⟨m, _, i, series, _, rfl⟩ := (mem_temperatureWrites tdFile w).mp ht
      obtain ⟨x, rfl, _, _⟩ := resolve_temperature_ok t m i series s _ hr
      exact hwrites

/-- C3, witness (scenario B): submodel `B` has the node ids 1 and 2 with global ids 5 and
6, hence local ids 0 and 1; the x position field returns 1.5 at global id 5, followed
only by the write for global id 6, which resolves to another slot; the stored coordinates
are then `coords[0].x = 1.5` and `coords[1].x = 2.5`. -/
theorem position_value_stored_unless_overwritten_witness :
    (∃ dim, getDim "REG.POS_X" = .ok dim ∧
      coordAt (fillTimeStepData scenarioArchive 0
        (readData scenarioArchive State.empty).state).state 5 dim = some 1.5) ∧
    Map.find (fillTimeStepData scenarioArchive 0
        (readData scenarioArchive State.empty).state).state.pointClouds "B" =
      some ⟨[5, 6], [⟨1.5, 0, 0⟩, ⟨2.5, 0, 0⟩]⟩ :=
  ⟨position_value_stored_unless_overwritten scenarioArchive 0
      (readData scenarioArchive State.empty).state 10 (by decide) (by decide)
      [.coord "REG.POS_X" 0 0, .coord "REG.POS_X" 1 0, .coord "REG.POS_X" 2 0,
        .coord "REG.POS_X" 3 0, .coord "REG.POS_X" 4 0]
      [.coord "REG.POS_X" 6 2.5] "REG.POS_X" 5 1.5 (by rfl)
      (by
        intro d' g' v' hmem
        simp only [List.mem_singleton, Write.coord.injEq] at hmem
        obtain ⟨_, hg, _⟩ := hmem
        subst hg
        intro h
        exact absurd h (by decide)),
    by rfl⟩

/-- C3, counterexample: in `overwriteArchive` the x position field returns 1.5 for the
global id 0, which discovery produced for node 1 of submodel `B`; the later global id 1
resolves to the same slot, and after the successful synchronisation the stored coordinate
of that node is 9, not 1.5. -/
theorem position_value_overwritten_by_unmapped_id :
    (1 : Int) ∈ overwriteArchive.getNodeIds "B" ∧
      overwriteArchive.getInternalIndex "B" 1 = 0 ∧
      contains "POS_X" "POS_X" = true ∧
      (overwriteArchive.getDataAtRecord ⟨"POS_X"⟩ 1)[0]? = some (1.5 : Double) ∧
      (fillTimeStepData overwriteArchive 0
        (readData overwriteArchive State.empty).state).error = none ∧
      coordAt (fillTimeStepData overwriteArchive 0
        (readData overwriteArchive State.empty).state).state 0 0 = some 9 ∧
      (9 : Double) ≠ 1.5 := by
  refine ⟨by decide, by decide, by decide, by rfl, by decide, by rfl, by norm_num⟩

theorem fieldWrites_of_no_writes (tdFile : SaveFile) (rec : Int) (b : UdfaDescription)
    (h : contains b.sindaDesignator "POS_" = false ∨ tdFile.getDataAtRecord b rec = []) :
    fieldWrites tdFile rec b = [] := by
  unfold fieldWrites
  rcases h with h | h
  · simp [h]
  · simp [h]

theorem flatten_map_eq_nil {α β : Type} (f : α → List β) (l : List α)
    (h : ∀ a ∈ l, f a = []) : (l.map f).flatten = [] := by
  induction l with
  | nil => rfl
  | cons a rest ih =>
    rw [List.map_cons, List.flatten_cons, h a (List.mem_cons_self _ _),
      ih (fun b hb => h b (List.mem_cons_of_mem _ hb))]
    rfl

theorem stub_doIteration_zero (its script : List Nat) (v : View) :
    (stubPeer its).doIteration v ⟨script, 0⟩ = .ok (false, ⟨script, 0⟩) := rfl

theorem stub_doIteration_succ (its script : List Nat) (k : Nat) (v : View) :
    (stubPeer its).doIteration v ⟨script, k + 1⟩ = .ok (true, ⟨script, k⟩) := rfl

theorem stub_updateInputs (its : List Nat) (v : View) (st : StubState) :
    (stubPeer its).updateInputs v st = .ok st := rfl

theorem stub_updateOutputs (its : List Nat) (c : ConvergenceStatus) (v : View)
    (st : StubState) : (stubPeer its).updateOutputs c v st = .ok st := rfl

theorem stub_doTimeStep_nil (its : List Nat) (pending : Nat) (v : View) :
    (stubPeer its).doTimeStep v ⟨[], pending⟩ = .ok (false, ⟨[], pending⟩) := rfl

theorem stub_doTimeStep_cons (its : List Nat) (m : Nat) (rest : List Nat) (pending : Nat)
    (v : View) :
    (stubPeer its).doTimeStep v ⟨m :: rest, pending⟩ = .ok (true, ⟨rest, m⟩) := rfl

theorem iterationLoop_stub (its : List Nat) (m : Nat) (fuel : Nat) (g : State) (ts : Int)
    (script : List Nat) (tr : List Event) (hfuel : m < fuel) :
    iterationLoop (stubPeer its) fuel ⟨g, ts, ⟨script, m⟩, tr⟩ =
      some (⟨g, ts, ⟨script, 0⟩, tr ++ iterationTrace m⟩, none) := by
  induction m generalizing fuel tr with
  | zero =>
    obtain ⟨fuel, rfl⟩ : ∃ f, fuel = f + 1 := ⟨fuel - 1, by omega⟩
    rfl
  | succ m ih =>
    obtain ⟨fuel, rfl⟩ : ∃ f, fuel = f + 1 := ⟨fuel - 1, by omega⟩
    unfold iterationLoop
    simp only [stub_doIteration_succ, stub_updateInputs, stub_updateOutputs, Process.call]
    rw [ih fuel _ (by omega)]
    simp [iterationTrace]

theorem timeStepLoop_stub (tdFile : SaveFile) (its : List Nat) (script : List Nat)
    (fuel : Nat) (g : State) (ts : Int) (pending : Nat) (tr : List Event)
    (hsync : SyncsSucceed tdFile ts g script.length)
    (hfuel : script.length + script.sum < fuel) :
    ∃ st, timeStepLoop (stubPeer its) tdFile fuel ⟨g, ts, ⟨script, pending⟩, tr⟩ =
      some (⟨syncedState tdFile ts g script.length, ts + script.length, st,
        tr ++ stepsTrace ts script⟩, none) := by
  induction script generalizing fuel g ts pending tr with
  | nil =>
    obtain ⟨fuel, rfl⟩ : ∃ f, fuel = f + 1 := ⟨fuel - 1, by omega⟩
    refine ⟨⟨[], pending⟩, ?_⟩
    unfold timeStepLoop
    simp [stub_doTimeStep_nil, stepsTrace, syncedState]
  | cons m rest ih =>
    obtain ⟨fuel, rfl⟩ : ∃ f, fuel = f + 1 := ⟨fuel - 1, by omega⟩
    simp only [List.length_cons, List.sum_cons] at hfuel
    obtain ⟨hfill, hrest⟩ := hsync
    obtain ⟨st, hst⟩ := ih fuel (fillTimeStepData tdFile (ts + 1) g).state (ts + 1) 0
      (tr ++ [Event.doTimeStep, Event.fillTimeStepData (ts + 1)] ++ iterationTrace m)
      hrest (by omega)
    refine ⟨st, ?_⟩
    unfold timeStepLoop
    simp only [stub_doTimeStep_cons, hfill]
    rw [iterationLoop_stub its m fuel _ _ _ _ (by omega)]
    simp only
    rw [hst]
    simp only [syncedState, stepsTrace, List.length_cons, List.append_assoc, Nat.cast_succ,
      Option.some.injEq, Prod.mk.injEq, and_true]
    congr 1
    ring

theorem filterMap_fillIndex_iterationTrace (m : Nat) :
    (iterationTrace m).filterMap Event.fillIndex = [] := by
  induction m with
  | zero => rfl
  | succ m ih =>
    unfold iterationTrace
    rw [List.filterMap_append, ih]
    rfl

theorem filterMap_fillIndex_stepsTrace (t : Int) (script : List Nat) :
    (stepsTrace t script).filterMap Event.fillIndex =
      (List.range script.length).map (fun (k : Nat) => t + 1 + (k : Int)) := by
  induction script generalizing t with
  | nil => rfl
  | cons m rest ih =>
    unfold stepsTrace
    rw [List.filterMap_append, List.filterMap_append, filterMap_fillIndex_iterationTrace, ih]
    simp only [List.length_cons, List.range_succ_eq_map, List.map_cons, List.map_map]
    simp only [List.filterMap_cons, Event.fillIndex, List.filterMap_nil, List.append_nil,
      List.singleton_append, Nat.cast_zero, add_zero, List.cons.injEq, true_and]
    apply List.map_congr_left
    intro k _
    simp only [Function.comp, Nat.cast_succ]
    ring

/-- C7: in run mode, against a peer stub whose `doTimeStep` answers `true` exactly `n`
times and then `false` (with finitely many iterations per time step), when every
synchronisation succeeds, the driver terminates normally with time-step counter `n` and
has called `fillTimeStepData` exactly `n + 1` times, with the indices `0, 1, ..., n` in
that order. -/
theorem run_mode_synchronises_each_time_step (tdFile : SaveFile) (iterations : List Nat)
    (writeScp : Bool) (fuel : Nat)
    (hfirst : (fillTimeStepData tdFile 0 (readData tdFile State.empty).state).error = none)
    (hsync : SyncsSucceed tdFile 0
      (fillTimeStepData tdFile 0 (readData tdFile State.empty).state).state iterations.length)
    (hfuel : iterations.length + iterations.sum < fuel) :
    ∃ p, main (stubPeer iterations) tdFile false writeScp fuel = some (some p, .success) ∧
      p.timeStep = iterations.length ∧
      p.trace.filterMap Event.fillIndex =
        (List.range (iterations.length + 1)).map (fun (k : Nat) => (k : Int)) := by
  obtain ⟨st, hloop⟩ := timeStepLoop_stub tdFile iterations iterations fuel
    (fillTimeStepData tdFile 0 (readData tdFile State.empty).state).state 0 0
    [Event.connect, Event.registerPointCloudAccess,
      Event.registerOutputScalarDataAccess, Event.registerRestartPointCreation,
      Event.fillTimeStepData 0, Event.initializeAnalysis] hsync hfuel
  refine ⟨⟨syncedState tdFile 0
      (fillTimeStepData tdFile 0 (readData tdFile State.empty).state).state iterations.length,
    0 + iterations.length, st,
    [Event.connect, Event.registerPointCloudAccess,
      Event.registerOutputScalarDataAccess, Event.registerRestartPointCreation,
      Event.fillTimeStepData 0, Event.initializeAnalysis] ++ stepsTrace 0 iterations ++
      [Event.disconnect]⟩, ?_, ?_, ?_⟩
  · unfold main
    have hconnect : (stubPeer iterations).connect = .ok ⟨iterations, 0⟩ := rfl
    have hreg1 : ∀ st, (stubPeer iterations).registerPointCloudAccess st = .ok st :=
      fun _ => rfl
    have hreg2 : ∀ st, (stubPeer iterations).registerOutputScalarDataAccess st = .ok st :=
      fun _ => rfl
    have hreg3 : ∀ st, (stubPeer iterations).registerRestartPointCreation st = .ok st :=
      fun _ => rfl
    have hinit : ∀ v st, (stubPeer iterations).initializeAnalysis v st = .ok st :=
      fun _ _ => rfl
    have hdisc : ∀ st, (stubPeer iterations).disconnect st = .ok st := fun _ => rfl
    simp only [hconnect, readData_error, Bool.false_eq_true, if_false, runMode,
      Process.call, hreg1, hreg2, hreg3, hinit, hfirst, Process.view, hdisc,
      List.singleton_append, List.cons_append, List.nil_append]
    rw [hloop]
    simp
  · simp
  · simp only [List.filterMap_append, filterMap_fillIndex_stepsTrace]
    simp only [List.filterMap_cons, Event.fillIndex, List.filterMap_nil, List.append_nil,
      List.range_succ_eq_map, List.map_cons, List.map_map, List.singleton_append,
      Nat.cast_zero, List.cons.injEq, true_and]
    apply List.map_congr_left
    intro k _
    simp only [Function.comp, Nat.cast_succ]
    ring

/-- C7, witness: a stub whose `doTimeStep` answers `true` twice (with 1 and 0
iterations) yields the counter 2 and the three synchronisation calls 0, 1, 2. -/
theorem run_mode_synchronises_each_time_step_witness :
    ∃ p, main (stubPeer [1, 0]) threeStepArchive false false 10 = some (some p, .success) ∧
      p.timeStep = ([1, 0] : List Nat).length ∧
      p.trace.filterMap Event.fillIndex =
        (List.range (([1, 0] : List Nat).length + 1)).map (fun (k : Nat) => (k : Int)) :=
  run_mode_synchronises_each_time_step threeStepArchive [1, 0] false 10 (by decide)
    (show _ ∧ _ ∧ True from ⟨by decide, by decide, trivial⟩) (by decide)

/-! ## Claims on the failures of a synchronisation -/

theorem indexer_eq_none {α : Type} (xs : List α) (i : Int)
    (h : i < 0 ∨ (xs.length : Int) ≤ i) : indexer xs i = none := by
  unfold indexer
  rcases h with h | h
  · have : ¬ (0 ≤ i) := by omega
    simp [this]
  · have h0 : 0 ≤ i := by omega
    simp only [h0, if_true]
    apply List.getElem?_eq_none
    omega

/-- C11: a synchronisation for a time-step index outside the recorded range of the
archive (negative, or not below the number of records) throws, from every state, and
leaves the globals as they were. -/
theorem out_of_range_time_step_fails (tdFile : SaveFile) (t : Int) (s : State)
    (h : t < 0 ∨ (tdFile.getRecordNumbers.length : Int) ≤ t) :
    (fillTimeStepData tdFile t s).error = some .indexOutOfRange ∧
      (fillTimeStepData tdFile t s).state = s := by
  unfold fillTimeStepData
  rw [indexer_eq_none _ _ h]
  exact ⟨rfl, rfl⟩

/-- C11, witness: the scenario archive has two records; time step 2 is out of range. -/
theorem out_of_range_time_step_fails_witness :
    (fillTimeStepData scenarioArchive 2 (readData scenarioArchive State.empty).state).error =
        some .indexOutOfRange ∧
      (fillTimeStepData scenarioArchive 2 (readData scenarioArchive State.empty).state).state =
        (readData scenarioArchive State.empty).state :=
  out_of_range_time_step_fails scenarioArchive 2 (readData scenarioArchive State.empty).state
    (Or.inr (by decide))

theorem forEach_preserves_mem {α : Type} (P : State → Prop) (body : α → State → Outcome)
    (l : List α) (hbody : ∀ a ∈ l, ∀ s, P s → P (body a s).state) (s : State) (h : P s) :
    P (forEach body l s).state := by
  induction l generalizing s with
  | nil => exact h
  | cons a rest ih =>
    rw [forEach_cons]
    have ha := hbody a (List.mem_cons_self _ _) s h
    by_cases he : (body a s).error.isSome
    · simp only [he, if_true]
      exact ha
    · simp only [he, if_false]
      exact ih (fun b hb => hbody b (List.mem_cons_of_mem _ hb)) _ ha

theorem flatten_map_filter {α β : Type} (p : α → Bool) (f : α → List β) (l : List α)
    (h : ∀ a, p a = false → f a = []) :
    ((l.filter p).map f).flatten = (l.map f).flatten := by
  induction l with
  | nil => rfl
  | cons a rest ih =>
    cases hp : p a with
    | true =>
      rw [List.filter_cons_of_pos (by simp [hp]), List.map_cons, List.flatten_cons, ih,
        List.map_cons, List.flatten_cons]
    | false =>
      rw [List.filter_cons_of_neg (by simp [hp]), ih, List.map_cons, List.flatten_cons,
        h a hp, List.nil_append]

theorem positionWrites_dropNonPosition (tdFile : SaveFile) (rec : Int) :
    positionWrites (dropNonPosition tdFile) rec = positionWrites tdFile rec := by
  unfold positionWrites
  have hf : fieldWrites (dropNonPosition tdFile) rec = fieldWrites tdFile rec := rfl
  rw [hf]
  exact flatten_map_filter _ _ _ (fun d hd => by simp [fieldWrites, hd])

theorem Write.run_temperature_pointClouds (t : Int) (name : String) (i : Nat)
    (series : List Double) (s : State) :
    (Write.run t (.temperature name i series) s).state.pointClouds = s.pointClouds := by
  rcases writeTemperature_state name t (i, series) s with h | ⟨v, h⟩
  · simp only [Write.run]
    rw [h]
  · simp only [Write.run]
    rw [h]
    rfl

/-- C15: a synchronisation has the same outcome, error and globals, as the synchronisation
of the archive from which the field descriptors without the position marker are removed;
and when no descriptor of the record carries the marker, the point clouds, all
coordinates included, are left as they were. -/
theorem non_position_fields_ignored (tdFile : SaveFile) (t : Int) (s : State) :
    fillTimeStepData tdFile t s = fillTimeStepData (dropNonPosition tdFile) t s ∧
      ((∀ rec, indexer tdFile.getRecordNumbers t = some rec →
          ∀ d ∈ tdFile.getUdfasAtRecord rec, contains d.sindaDesignator "POS_" = false) →
        (fillTimeStepData tdFile t s).state.pointClouds = s.pointClouds) := by
  constructor
  · rw [fillTimeStepData_eq, fillTimeStepData_eq]
    have h1 : (dropNonPosition tdFile).getRecordNumbers = tdFile.getRecordNumbers := rfl
    have h2 : temperatureWrites (dropNonPosition tdFile) = temperatureWrites tdFile := rfl
    rw [h1]
    cases indexer tdFile.getRecordNumbers t with
    | none => rfl
    | some rec =>
      simp only
      rw [positionWrites_dropNonPosition, h2]
  · intro hnone
    rw [fillTimeStepData_eq]
    cases hrec : indexer tdFile.getRecordNumbers t with
    | none => rfl
    | some rec =>
      simp only
      have hpos : positionWrites tdFile rec = [] := by
        unfold positionWrites
        apply flatten_map_eq_nil
        intro d hd
        exact fieldWrites_of_no_writes tdFile rec d (Or.inl (hnone rec hrec d hd))
      rw [hpos, List.nil_append]
      apply forEach_preserves_mem (fun s' => s'.pointClouds = s.pointClouds) _ _ _ s rfl
      intro w hw s' hs'
      obtain ⟨m, _, i, series, _, rfl⟩ := (mem_temperatureWrites tdFile w).mp hw
      rw [Write.run_temperature_pointClouds]
      exact hs'

/-- C15, witness: in the scenario archive the field `REG.OTHER`, which lacks the position
marker, stands next to the position field `REG.POS_X`, and removing it changes nothing;
in `noPositionArchive` both fields of the record carry values and lack the marker, and
the synchronisation after discovery leaves the point clouds as they were. -/
theorem non_position_fields_ignored_witness :
    fillTimeStepData scenarioArchive 0 (readData scenarioArchive State.empty).state =
        fillTimeStepData (dropNonPosition scenarioArchive) 0
          (readData scenarioArchive State.empty).state ∧
      (fillTimeStepData noPositionArchive 1
          (readData noPositionArchive State.empty).state).state.pointClouds =
        (readData noPositionArchive State.empty).state.pointClouds :=
  ⟨(non_position_fields_ignored scenarioArchive 0
      (readData scenarioArchive State.empty).state).1,
    (non_position_fields_ignored noPositionArchive 1
      (readData noPositionArchive State.empty).state).2
      (fun _ _ d hd => by
        have hd' : d = ⟨"REG.TEMP"⟩ ∨ d = ⟨"REG.FLUX"⟩ := by
          simpa [noPositionArchive] using hd
        rcases hd' with h | h <;> subst h <;> decide)⟩

theorem Map.keys_modify {β : Type} (m : Map β) (k : String) (f : β → β) :
    Map.keys (Map.modify m k f) = Map.keys m := by
  unfold Map.keys Map.modify
  rw [List.map_map]
  apply List.map_congr_left
  intro e _
  by_cases he : e.1 = k <;> simp [he]

theorem sameFrame_refl (s : State) : SameFrame s s := ⟨rfl, rfl, rfl, rfl, rfl⟩

theorem sameFrame_apply (a : Action) (s s' : State) (h : SameFrame s s') :
    SameFrame s (a.apply s') := by
  obtain ⟨h1, h2, h3, h4, h5⟩ := h
  cases a with
  | coord name l d v =>
    refine ⟨h1, h2, ?_, h4, ?_⟩
    · simp only [Action.apply, storeCoord, Map.keys_modify]
      exact h3
    · rw [← h5]
      simp only [Action.apply, storeCoord, Map.modify, List.map_map]
      apply List.map_congr_left
      intro e _
      by_cases he : e.1 = name <;> simp [he]
  | temperature name i v =>
    refine ⟨h1, h2, h3, ?_, h5⟩
    simp only [Action.apply, storeTemperature, Map.keys_modify]
    exact h4

/-- C17: a synchronisation, whether it succeeds or throws, changes neither the regions
list, nor the global id index, nor the names under which point clouds and solution data
are stored, nor the `ids` sequence of any point cloud. -/
theorem synchronisation_keeps_frame (tdFile : SaveFile) (t : Int) (s : State) :
    SameFrame s (fillTimeStepData tdFile t s).state := by
  rw [fillTimeStepData_eq]
  cases indexer tdFile.getRecordNumbers t with
  | none => exact sameFrame_refl s
  | some rec =>
    simp only
    apply forEach_preserves (SameFrame s) _ _ _ s (sameFrame_refl s)
    intro w s' hs'
    rw [Write.run_eq]
    cases Write.resolve t w s' with
    | error e => exact hs'
    | ok a => exact sameFrame_apply a s s' hs'

/-- C19: a synchronisation is not atomic. For `partialArchive` at time step 1 the
position phase succeeds, the temperature phase throws because the series has no value
at index 1, and the x coordinate written by the position phase is kept: it is 1.5 after
the failed call and 0 before it. -/
theorem failed_synchronisation_keeps_coordinate_writes :
    ∃ (tdFile : SaveFile) (s : State) (t : Int) (rec : Int),
      indexer tdFile.getRecordNumbers t = some rec ∧
      (forEach (fillPosition tdFile rec) (tdFile.getUdfasAtRecord rec) s).error = none ∧
      (fillTimeStepData tdFile t s).error = some .indexOutOfRange ∧
      coordAt s 0 0 = some 0 ∧
      coordAt (fillTimeStepData tdFile t s).state 0 0 = some 1.5 ∧
      coordAt (fillTimeStepData tdFile t s).state 0 0 ≠ coordAt s 0 0 := by
  refine ⟨partialArchive, (readData partialArchive State.empty).state, 1, 2,
    by decide, by decide, by decide, by rfl, by rfl, ?_⟩
  have h1 : coordAt (fillTimeStepData partialArchive 1
      (readData partialArchive State.empty).state).state 0 0 = some 1.5 := by rfl
  have h2 : coordAt (readData partialArchive State.empty).state 0 0 = some 0 := by rfl
  rw [h1, h2]
  norm_num

/-! ## Claims on the stores after discovery -/

theorem discoveredIds_of_nodup (tdFile : SaveFile) (l : List String) (m : String)
    (hnodup : l.Nodup) (hm : m ∈ discovered tdFile l) :
    discoveredIds tdFile l m = nodeGlobalIds tdFile m := by
  induction l with
  | nil => simp [discovered] at hm
  | cons m0 rest ih =>
    obtain ⟨hnot, hrest⟩ := List.nodup_cons.mp hnodup
    unfold discoveredIds
    by_cases h0 : isEmptyRegion tdFile m0 = false ∧ m0 = m
    · rw [if_pos h0]
      obtain ⟨_, h0⟩ := h0
      subst h0
      have : m0 ∉ discovered tdFile rest := fun h => hnot ((mem_discovered _ _ _).mp h).1
      rw [discoveredIds_of_not_mem tdFile rest m0 this, List.append_nil]
    · rw [if_neg h0, List.nil_append]
      apply ih hrest
      rw [mem_discovered] at hm ⊢
      rcases List.mem_cons.mp hm.1 with h | h
      · exact absurd ⟨h ▸ hm.2, h.symm⟩ h0
      · exact ⟨h, hm.2⟩

/-- C13 (as the code behaves): after discovery on an archive that lists every submodel
once, the `ids` of the region of a submodel that is not skipped are the global ids (the
archive's internal indices) of its nodes in archive order, not the node ids minus one;
they are unique within the region when the node ids are distinct and have distinct
internal indices. -/
theorem ids_are_global_ids (tdFile : SaveFile) (hnodup : tdFile.getThermalSubmodels.Nodup)
    (m : String) (hm : m ∈ tdFile.getThermalSubmodels)
    (hdata : tdFile.getTemperatureData m ≠ []) :
    ∃ pc, Map.find (readData tdFile State.empty).state.pointClouds m = some pc ∧
      pc.ids = (tdFile.getNodeIds m).map (tdFile.getInternalIndex m) ∧
      ((tdFile.getNodeIds m).Nodup →
        (∀ id1 ∈ tdFile.getNodeIds m, ∀ id2 ∈ tdFile.getNodeIds m,
          tdFile.getInternalIndex m id1 = tdFile.getInternalIndex m id2 → id1 = id2) →
        pc.ids.Nodup) := by
  have hmd : m ∈ discovered tdFile tdFile.getThermalSubmodels :=
    (mem_discovered _ _ _).mpr ⟨hm, (isEmptyRegion_eq_false_iff _ _).mpr hdata⟩
  have hpc : Map.find (readData tdFile State.empty).state.pointClouds m =
      some ((PointCloud.mk [] []).extend (nodeGlobalIds tdFile m)) := by
    unfold readData
    rw [readData_pointClouds]
    simp only [hmd, if_true]
    rw [discoveredIds_of_nodup tdFile _ m hnodup hmd]
    rfl
  refine ⟨_, hpc, ?_, ?_⟩
  · simp [PointCloud.extend, nodeGlobalIds]
  · intro hids hinj
    simp only [PointCloud.extend, nodeGlobalIds, List.nil_append]
    exact List.Nodup.map_on hinj hids

/-- C13, witness: submodel `B` of the scenario archive, with the node ids 1 and 2 and the
global ids 5 and 6. -/
theorem ids_are_global_ids_witness :
    ∃ pc, Map.find (readData scenarioArchive State.empty).state.pointClouds "B" = some pc ∧
      pc.ids = (scenarioArchive.getNodeIds "B").map (scenarioArchive.getInternalIndex "B") ∧
      ((scenarioArchive.getNodeIds "B").Nodup →
        (∀ id1 ∈ scenarioArchive.getNodeIds "B", ∀ id2 ∈ scenarioArchive.getNodeIds "B",
          scenarioArchive.getInternalIndex "B" id1 = scenarioArchive.getInternalIndex "B" id2 →
            id1 = id2) →
        pc.ids.Nodup) :=
  ids_are_global_ids scenarioArchive (by decide) "B" (by decide) (by decide)

/-- C13, counterexample: the nodes of submodel `B` of the scenario archive have the node
ids 1 and 2, hence the local ids 0 and 1, but the `ids` of its region after discovery are
the global ids 5 and 6. -/
theorem ids_are_not_local_ids :
    (scenarioArchive.getNodeIds "B").map localIdOf = [0, 1] ∧
      Map.find (readData scenarioArchive State.empty).state.pointClouds "B" =
        some ⟨[5, 6], [Vector.zero, Vector.zero]⟩ ∧
      ([5, 6] : List Nat) ≠ [0, 1] := by
  refine ⟨by decide, by decide, by decide⟩

theorem defaultValues_empty : DefaultValues State.empty := by
  constructor
  · intro name pc h
    simp [State.empty, Map.find_nil] at h
  · intro name vd h
    simp [State.empty, Map.find_nil] at h

theorem emplace_temperature_singleton (x : List Double) :
    Map.emplace ([("Temperature", x)] : VariableData) "Temperature" [] =
      [("Temperature", x)] := by
  simp [Map.emplace, Map.find_cons]

theorem emplace_temperature_nil :
    Map.emplace ([] : VariableData) "Temperature" [] = [("Temperature", [])] := by
  simp [Map.emplace, Map.find_nil, Map.insertSorted]

theorem modify_temperature_singleton (x : List Double) (f : List Double → List Double) :
    Map.modify ([("Temperature", x)] : VariableData) "Temperature" f =
      [("Temperature", f x)] := by
  simp [Map.modify]

theorem defaultValues_openRegion (regionName : String) (s : State) (h : DefaultValues s) :
    DefaultValues (openRegion regionName s) := by
  obtain ⟨h1, h2⟩ := h
  constructor
  · intro name pc hpc
    simp only [openRegion, Map.find_emplace] at hpc
    by_cases hn : name = regionName
    · simp only [hn, if_true, Option.some.injEq] at hpc
      cases hf : Map.find s.pointClouds regionName with
      | none =>
        rw [hf] at hpc
        simp only [Option.getD_none] at hpc
        subst hpc
        rfl
      | some pc0 =>
        rw [hf] at hpc
        simp only [Option.getD_some] at hpc
        subst hpc
        exact h1 _ _ hf
    · simp only [hn, if_false] at hpc
      exact h1 _ _ hpc
  · intro name vd hvd
    simp only [openRegion, Map.find_modify, Map.find_emplace] at hvd
    by_cases hn : name = regionName
    · simp only [hn, if_true, Option.map_some', Option.some.injEq] at hvd
      cases hf : Map.find s.solutionData regionName with
      | none =>
        rw [hf] at hvd
        simp only [Option.getD_none, emplace_temperature_nil] at hvd
        exact ⟨0, hvd.symm⟩
      | some vd0 =>
        rw [hf] at hvd
        simp only [Option.getD_some] at hvd
        obtain ⟨n, hn0⟩ := h2 _ _ hf
        rw [hn0, emplace_temperature_singleton] at hvd
        exact ⟨n, hvd.symm⟩
    · simp only [hn, if_false] at hvd
      exact h2 _ _ hvd

theorem defaultValues_readNode (tdFile : SaveFile) (submodel regionName : String)
    (regionIndex : Nat) (s : State) (id : Int) (h : DefaultValues s) :
    DefaultValues (readNode tdFile submodel regionName regionIndex s id) := by
  obtain ⟨h1, h2⟩ := h
  constructor
  · intro name pc hpc
    simp only [readNode, Map.find_modify] at hpc
    by_cases hn : name = regionName
    · simp only [hn, if_true] at hpc
      cases hf : Map.find s.pointClouds regionName with
      | none => simp [hf] at hpc
      | some pc0 =>
        rw [hf] at hpc
        simp only [Option.map_some', Option.some.injEq] at hpc
        subst hpc
        have := h1 _ _ hf
        simp only [List.length_append, List.length_singleton, List.replicate_succ']
        rw [← this]
    · simp only [hn, if_false] at hpc
      exact h1 _ _ hpc
  · intro name vd hvd
    simp only [readNode, Map.find_modify] at hvd
    by_cases hn : name = regionName
    · simp only [hn, if_true] at hvd
      cases hf : Map.find s.solutionData regionName with
      | none => simp [hf] at hvd
      | some vd0 =>
        rw [hf] at hvd
        simp only [Option.map_some', Option.some.injEq] at hvd
        obtain ⟨n, hn0⟩ := h2 _ _ hf
        rw [hn0, modify_temperature_singleton] at hvd
        refine ⟨n + 1, ?_⟩
        rw [← hvd, List.replicate_succ']
    · simp only [hn, if_false] at hvd
      exact h2 _ _ hvd

theorem defaultValues_readData (tdFile : SaveFile) (s : State) (h : DefaultValues s) :
    DefaultValues (readData tdFile s).state := by
  apply forEach_preserves DefaultValues _ _ _ s h
  intro m s' hs'
  rw [readSubmodel_eq]
  by_cases he : isEmptyRegion tdFile m
  · simpa [he] using hs'
  · simp only [he, Bool.false_eq_true, if_false]
    exact foldl_preserves DefaultValues _ (fun s a hs => defaultValues_readNode _ _ _ _ s a hs)
      _ _ (defaultValues_openRegion m s' hs')

/-- C16: right after discovery every region has a point cloud whose coordinates are all
`(0, 0, 0)`, and its solution data are the single field `Temperature` holding 300 at
every position of the region. -/
theorem discovery_initialises_defaults (tdFile : SaveFile) :
    FreshState (readData tdFile State.empty).state := by
  obtain ⟨hb1, hb2, _⟩ := balanced_readData tdFile State.empty balanced_empty
  obtain ⟨hd1, hd2⟩ := defaultValues_readData tdFile State.empty defaultValues_empty
  intro r hr
  obtain ⟨pc, hpc⟩ := Option.isSome_iff_exists.mp (hb1 r hr)
  obtain ⟨hl, vd, t, hvd, ht, hlen⟩ := hb2 _ pc hpc
  obtain ⟨n, hn⟩ := hd2 _ vd hvd
  refine ⟨pc, hpc, ?_, ?_⟩
  · rw [PointCloud.size, hl]
    exact hd1 _ pc hpc
  · rw [hvd, hn]
    rw [hn] at ht
    simp only [Map.find_cons, if_true, Option.some.injEq] at ht
    have hnl : n = pc.size := by
      have := congrArg List.length ht
      simp only [List.length_replicate] at this
      rw [PointCloud.size, hl, hlen, this]
    rw [hnl]

/-! ## Claims on the calls of the driver -/

theorem iterationTrace_eq (m : Nat) :
    iterationTrace m =
      (List.replicate m [Event.doIteration, Event.updateInputs,
        Event.updateOutputs .NotEvaluated]).flatten ++ [Event.doIteration] := by
  induction m with
  | zero => rfl
  | succ m ih =>
    unfold iterationTrace
    rw [ih, List.replicate_succ, List.flatten_cons, List.append_assoc]

theorem stepsTrace_eq_runCalls (t : Int) (script : List Nat) :
    stepsTrace t script = runCalls t script := by
  induction script generalizing t with
  | nil => rfl
  | cons m rest ih =>
    unfold stepsTrace runCalls stepCalls
    rw [ih, iterationTrace_eq]
    simp

theorem updateOutputs_mem_runCalls (t : Int) (script : List Nat) (c : ConvergenceStatus)
    (h : Event.updateOutputs c ∈ runCalls t script) : c = .NotEvaluated := by
  induction script generalizing t with
  | nil => simp [runCalls] at h
  | cons m rest ih =>
    unfold runCalls stepCalls at h
    simp only [List.mem_append, List.mem_cons, List.mem_singleton, List.mem_flatten,
      List.mem_replicate, List.not_mem_nil, or_false] at h
    rcases h with ((h | h) | h) | h
    · rcases h with h | h <;> cases h
    · obtain ⟨l, ⟨_, rfl⟩, hl⟩ := h
      simp only [List.mem_cons, List.mem_singleton, List.not_mem_nil, or_false] at hl
      rcases hl with hl | hl | hl
      · cases hl
      · cases hl
      · cases hl
        rfl
    · cases h
    · exact ih _ h

/-- The run of `main` in run mode against the peer stub, when every synchronisation
succeeds and the loop bound is large enough. -/
theorem main_stub_run (tdFile : SaveFile) (iterations : List Nat) (writeScp : Bool)
    (fuel : Nat)
    (hfirst : (fillTimeStepData tdFile 0 (readData tdFile State.empty).state).error = none)
    (hsync : SyncsSucceed tdFile 0
      (fillTimeStepData tdFile 0 (readData tdFile State.empty).state).state iterations.length)
    (hfuel : iterations.length + iterations.sum < fuel) :
    ∃ st, main (stubPeer iterations) tdFile false writeScp fuel =
      some (some ⟨syncedState tdFile 0
          (fillTimeStepData tdFile 0 (readData tdFile State.empty).state).state
          iterations.length,
        0 + iterations.length, st,
        [Event.connect, Event.registerPointCloudAccess,
          Event.registerOutputScalarDataAccess, Event.registerRestartPointCreation,
          Event.fillTimeStepData 0, Event.initializeAnalysis] ++ stepsTrace 0 iterations ++
          [Event.disconnect]⟩, .success) := by
  obtain ⟨st, hloop⟩ := timeStepLoop_stub tdFile iterations iterations fuel
    (fillTimeStepData tdFile 0 (readData tdFile State.empty).state).state 0 0
    [Event.connect, Event.registerPointCloudAccess,
      Event.registerOutputScalarDataAccess, Event.registerRestartPointCreation,
      Event.fillTimeStepData 0, Event.initializeAnalysis] hsync hfuel
  refine ⟨st, ?_⟩
  unfold main
  have hconnect : (stubPeer iterations).connect = .ok ⟨iterations, 0⟩ := rfl
  have hreg1 : ∀ st, (stubPeer iterations).registerPointCloudAccess st = .ok st :=
    fun _ => rfl
  have hreg2 : ∀ st, (stubPeer iterations).registerOutputScalarDataAccess st = .ok st :=
    fun _ => rfl
  have hreg3 : ∀ st, (stubPeer iterations).registerRestartPointCreation st = .ok st :=
    fun _ => rfl
  have hinit : ∀ v st, (stubPeer iterations).initializeAnalysis v st = .ok st :=
    fun _ _ => rfl
  have hdisc : ∀ st, (stubPeer iterations).disconnect st = .ok st := fun _ => rfl
  simp only [hconnect, readData_error, Bool.false_eq_true, if_false, runMode,
    Process.call, hreg1, hreg2, hreg3, hinit, hfirst, Process.view, hdisc,
    List.singleton_append, List.cons_append, List.nil_append]
  rw [hloop]
  simp

/-- C18: in run mode, against a peer stub whose `doIteration` answers `true` exactly `m`
times and then `false` in a time step, the calls of that time step are the announcement
and synchronisation of the step, then `m` times `doIteration`, `updateInputs`,
`updateOutputs(NotEvaluated)` in that order, then the closing `doIteration`; no
`updateOutputs` with another status occurs anywhere in the run. -/
theorem run_mode_answers_each_iteration (tdFile : SaveFile) (iterations : List Nat)
    (writeScp : Bool) (fuel : Nat)
    (hfirst : (fillTimeStepData tdFile 0 (readData tdFile State.empty).state).error = none)
    (hsync : SyncsSucceed tdFile 0
      (fillTimeStepData tdFile 0 (readData tdFile State.empty).state).state iterations.length)
    (hfuel : iterations.length + iterations.sum < fuel) :
    ∃ p, main (stubPeer iterations) tdFile false writeScp fuel = some (some p, .success) ∧
      p.trace = [Event.connect, Event.registerPointCloudAccess,
          Event.registerOutputScalarDataAccess, Event.registerRestartPointCreation,
          Event.fillTimeStepData 0, Event.initializeAnalysis] ++ runCalls 0 iterations ++
          [Event.disconnect] ∧
      ∀ c, Event.updateOutputs c ∈ p.trace → c = .NotEvaluated := by
  obtain ⟨st, hmain⟩ := main_stub_run tdFile iterations writeScp fuel hfirst hsync hfuel
  refine ⟨_, hmain, ?_, ?_⟩
  · simp only
    rw [stepsTrace_eq_runCalls]
  · intro c hc
    simp only at hc
    rw [stepsTrace_eq_runCalls] at hc
    simp only [List.mem_append, List.mem_cons, List.mem_singleton, List.not_mem_nil,
      or_false] at hc
    rcases hc with (hc | hc) | hc
    · rcases hc with hc | hc | hc | hc | hc | hc <;> cases hc
    · exact updateOutputs_mem_runCalls 0 iterations c hc
    · cases hc

/-- C18, witness: a stub with two time steps of 2 and 0 iterations, against the archive
with three records. -/
theorem run_mode_answers_each_iteration_witness :
    ∃ p, main (stubPeer [2, 0]) threeStepArchive false false 10 = some (some p, .success) ∧
      p.trace = [Event.connect, Event.registerPointCloudAccess,
          Event.registerOutputScalarDataAccess, Event.registerRestartPointCreation,
          Event.fillTimeStepData 0, Event.initializeAnalysis] ++ runCalls 0 [2, 0] ++
          [Event.disconnect] ∧
      ∀ c, Event.updateOutputs c ∈ p.trace → c = .NotEvaluated :=
  run_mode_answers_each_iteration threeStepArchive [2, 0] false 10 (by decide)
    (show _ ∧ _ ∧ True from ⟨by decide, by decide, trivial⟩) (by decide)

/-- C14, the code at a failing input: in run mode against a peer whose
`initializeAnalysis` fails, `main` ends with `EXIT_FAILURE` and the last call it has
issued is the failed `initializeAnalysis`; no `disconnect` is issued. -/
theorem failure_exit_without_disconnect :
    callsAndExit (main failingPeer threeStepArchive false false 10) =
        some ([Event.connect, Event.registerPointCloudAccess,
          Event.registerOutputScalarDataAccess, Event.registerRestartPointCreation,
          Event.fillTimeStepData 0, Event.initializeAnalysis], Exit.failure) ∧
      Event.disconnect ∉ [Event.connect, Event.registerPointCloudAccess,
          Event.registerOutputScalarDataAccess, Event.registerRestartPointCreation,
          Event.fillTimeStepData 0, Event.initializeAnalysis] := by
  refine ⟨by rfl, by decide⟩

/-! ## No failure path of the driver calls `disconnect` -/

theorem Process.call_trace {σ : Type} (p : Process σ) (e : Event) (r : Except Error σ) :
    (p.call e r).1.trace = p.trace ++ [e] := by
  unfold Process.call
  cases r <;> rfl

theorem not_mem_append_singleton (tr : List Event) (e : Event)
    (h : Event.disconnect ∉ tr) (he : e ≠ Event.disconnect) :
    Event.disconnect ∉ tr ++ [e] := by
  simp only [List.mem_append, List.mem_singleton, not_or]
  exact ⟨h, fun h' => he h'.symm⟩

theorem Process.call_quiet {σ : Type} (p : Process σ) (e : Event) (r : Except Error σ)
    (q : Process σ) (err : Option Error) (hcall : p.call e r = (q, err))
    (h : Event.disconnect ∉ p.trace) (he : e ≠ Event.disconnect) :
    Event.disconnect ∉ q.trace := by
  have := Process.call_trace p e r
  rw [hcall] at this
  simp only at this
  rw [this]
  exact not_mem_append_singleton _ _ h he

theorem iterationLoop_quiet {σ : Type} (sc : SystemCoupling σ) (fuel : Nat) (p : Process σ)
    (r : Process σ × Option Error) (hrun : iterationLoop sc fuel p = some r)
    (h : Event.disconnect ∉ p.trace) : Event.disconnect ∉ r.1.trace := by
  induction fuel generalizing p with
  | zero => simp [iterationLoop] at hrun
  | succ fuel ih =>
    unfold iterationLoop at hrun
    split at hrun
    · cases hrun
      exact not_mem_append_singleton _ _ h (by decide)
    · cases hrun
      exact not_mem_append_singleton _ _ h (by decide)
    · simp only at hrun
      split at hrun
      · rename_i p2 err hcall
        cases hrun
        exact Process.call_quiet _ _ _ _ _ hcall
          (not_mem_append_singleton _ _ h (by decide)) (by decide)
      · rename_i p2 hcall
        have h2 := Process.call_quiet _ _ _ _ _ hcall
          (not_mem_append_singleton _ _ h (by decide)) (by decide)
        split at hrun
        · rename_i p3 err hcall3
          cases hrun
          exact Process.call_quiet _ _ _ _ _ hcall3 h2 (by decide)
        · rename_i p3 hcall3
          exact ih p3 hrun (Process.call_quiet _ _ _ _ _ hcall3 h2 (by decide))

theorem timeStepLoop_quiet {σ : Type} (sc : SystemCoupling σ) (tdFile : SaveFile)
    (fuel : Nat) (p : Process σ) (r : Process σ × Option Error)
    (hrun : timeStepLoop sc tdFile fuel p = some r)
    (h : Event.disconnect ∉ p.trace) : Event.disconnect ∉ r.1.trace := by
  induction fuel generalizing p with
  | zero => simp [timeStepLoop] at hrun
  | succ fuel ih =>
    unfold timeStepLoop at hrun
    split at hrun
    · cases hrun
      exact not_mem_append_singleton _ _ h (by decide)
    · cases hrun
      exact not_mem_append_singleton _ _ h (by decide)
    · simp only at hrun
      have h1 : Event.disconnect ∉ p.trace ++
          [Event.doTimeStep, Event.fillTimeStepData (p.timeStep + 1)] := by
        simp only [List.mem_append, List.mem_cons, List.mem_singleton, List.not_mem_nil,
          or_false, not_or]
        exact ⟨h, by decide, by simp⟩
      split at hrun
      · cases hrun
        exact h1
      · split at hrun
        · cases hrun
        · rename_i p2 err hloop
          cases hrun
          exact iterationLoop_quiet sc fuel _ _ hloop h1
        · rename_i p2 hloop
          exact ih p2 hrun (iterationLoop_quiet sc fuel _ _ hloop h1)

theorem runMode_quiet {σ : Type} (sc : SystemCoupling σ) (tdFile : SaveFile)
    (fuel : Nat) (p : Process σ) (r : Process σ × Option Error)
    (hrun : runMode sc tdFile fuel p = some r)
    (h : Event.disconnect ∉ p.trace) : Event.disconnect ∉ r.1.trace := by
  unfold runMode at hrun
  split at hrun
  · rename_i p1 err hc1
    cases hrun
    exact Process.call_quiet _ _ _ _ _ hc1 h (by decide)
  · rename_i p1 hc1
    have h1 := Process.call_quiet _ _ _ _ _ hc1 h (by decide)
    split at hrun
    · rename_i p2 err hc2
      cases hrun
      exact Process.call_quiet _ _ _ _ _ hc2 h1 (by decide)
    · rename_i p2 hc2
      have h2 := Process.call_quiet _ _ _ _ _ hc2 h1 (by decide)
      split at hrun
      · rename_i p3 err hc3
        cases hrun
        exact Process.call_quiet _ _ _ _ _ hc3 h2 (by decide)
      · rename_i p3 hc3
        have h3 := Process.call_quiet _ _ _ _ _ hc3 h2 (by decide)
        simp only at hrun
        have h4 : Event.disconnect ∉ p3.trace ++ [Event.fillTimeStepData p3.timeStep] :=
          not_mem_append_singleton _ _ h3 (by simp)
        split at hrun
        · cases hrun
          exact h4
        · split at hrun
          · rename_i p5 err hc5
            cases hrun
            exact Process.call_quiet _ _ _ _ _ hc5 h4 (by decide)
          · rename_i p5 hc5
            exact timeStepLoop_quiet sc tdFile fuel p5 r hrun
              (Process.call_quiet _ _ _ _ _ hc5 h4 (by decide))

theorem addRegions_quiet {σ : Type} (sc : SystemCoupling σ) (names : List String)
    (p : Process σ) (h : Event.disconnect ∉ p.trace) :
    Event.disconnect ∉ (addRegions sc names p).1.trace := by
  induction names generalizing p with
  | nil => exact h
  | cons name rest ih =>
    unfold addRegions
    split
    · rename_i p1 err hc
      exact Process.call_quiet _ _ _ _ _ hc h (by simp)
    · rename_i p1 hc
      exact ih p1 (Process.call_quiet _ _ _ _ _ hc h (by simp))

theorem setupMode_quiet {σ : Type} (sc : SystemCoupling σ) (writeScp : Bool)
    (p : Process σ) (h : Event.disconnect ∉ p.trace) :
    Event.disconnect ∉ (setupMode sc writeScp p).1.trace := by
  unfold setupMode
  have h0 := addRegions_quiet sc (Map.keys p.globals.pointClouds) p h
  split
  · rename_i p1 err hc
    rw [hc] at h0
    exact h0
  · rename_i p1 hc
    rw [hc] at h0
    split
    · rename_i p2 err hc2
      exact Process.call_quiet _ _ _ _ _ hc2 h0 (by decide)
    · rename_i p2 hc2
      have h2 := Process.call_quiet _ _ _ _ _ hc2 h0 (by decide)
      split
      · exact Process.call_quiet p2 _ _ _ _ rfl h2 (by simp)
      · exact h2

/-- Whenever `main` ends with `EXIT_FAILURE`, in setup mode or in run mode and against
any peer, it has not called `disconnect`. -/
theorem main_failure_quiet {σ : Type} (sc : SystemCoupling σ) (tdFile : SaveFile)
    (scsetup writeScp : Bool) (fuel : Nat) (p : Process σ)
    (hmain : main sc tdFile scsetup writeScp fuel = some (some p, .failure)) :
    Event.disconnect ∉ p.trace := by
  unfold main at hmain
  split at hmain
  · cases hmain
  · rename_i peer _
    simp only [readData_error] at hmain
    have h0 : Event.disconnect ∉ [Event.connect] := by decide
    split at hmain
    · cases hmain
    · rename_i p1 err hg
      have hq : Event.disconnect ∉ p1.trace := by
        by_cases hs : scsetup = true
        · simp only [hs, if_true, Option.some.injEq] at hg
          have := setupMode_quiet sc writeScp
            ⟨(readData tdFile State.empty).state, 0, peer, [Event.connect]⟩ h0
          rw [hg] at this
          exact this
        · simp only [hs, if_false] at hg
          exact runMode_quiet sc tdFile fuel _ _ hg h0
      split at hmain
      · cases hmain
        exact hq
      · cases hmain
    · split at hmain
      · cases hmain
      · cases hmain

end TDResultsReader
